import Mathlib

/-!
# pgxmig: the migration-application protocol of `Source.Migrate`

A shallow embedding of `src/pgxmig.go`.  The Go function talks to two
collaborators that are not part of the repository: an `fs.FS` (through
`fs.Glob` and `fs.ReadFile`) and a pgx database handle (through
`pgx.BeginFunc`, `tx.QueryRow` and `tx.Exec`).  They are modelled as follows.

* The file system is a pair of pure functions (`FS.glob`, `FS.readFile`), each
  of which may fail with a cause.  A glob may list the names in any order; the
  names of files are distinct, and the theorems that need this say so
  (`Nodup`).
* The durable database state (`DBState`) is the content of the
  `db_migrations` table (`none` while the table does not exist, otherwise its
  rows in insertion order, duplicates allowed because a table that already
  exists is left as it is by `create table if not exists`, with or without its
  key) together with the texts of the migration bodies, or of the parts of
  them, whose effects have been committed.
* A body is sent verbatim, so it may hold transaction control of its own.  A
  body that ends the transaction of its migration with a `commit` makes
  durable, there and then, the insert that precedes it and what it has done
  so far; a statement that fails after that commit is no longer undone with
  them.  Which bodies do this is given by `Cuts`: `cuts data = some part`
  says that the text `data` commits after its part `part` (the commit
  included).  Apart from that, bodies are taken not to touch `db_migrations`
  and not to roll back the transaction themselves.
* Every database call may fail.  Whether it does is decided by a fault
  oracle `Faults`: `faults n st` is the cause with which the call at stage
  `st` of the `n`-th transaction of the run fails, if it does (transaction
  `0` creates the table, transaction `i + 1` belongs to the `i`-th file of
  the sorted run).
* `pgx.BeginFunc` begins a transaction, runs the function on it, commits when
  the function returns `nil` and rolls back otherwise; a transaction that is
  rolled back or fails to commit leaves nothing durable but what a body has
  committed on its own.  The rollback it always issues on its way out, a
  no-op once the transaction is closed, is not part of the trace.
* Go strings are compared byte-wise; for the UTF-8 names an `fs.FS` deals in
  this is the order of `String`.

`Source.Migrate` returns the Go `error` (`none` for `nil`), the durable
database state afterwards, and the trace of calls it made, in order.
-/

namespace Pgxmig

/-- A Go `error` value: a cause reported by a collaborator, or the result of
`fmt.Errorf(msg ++ ": %q: %w", quoted, inner)` (without the `%q` part when
`quoted` is `none`). -/
inductive Err where
  | cause (msg : String)
  | errorf (msg : String) (quoted : Option String) (inner : Err)
deriving DecidableEq, Repr

/-- The method `Unwrap` of the error built by `fmt.Errorf` with `%w`. -/
def Err.unwrap : Err → Option Err
  | .cause _ => none
  | .errorf _ _ inner => some inner

/-- The end of the chain followed by repeated unwrapping. -/
def Err.root : Err → Err
  | .cause msg => .cause msg
  | .errorf _ _ inner => inner.root

/-- The error of line 28. -/
@[reducible] def globErr (pattern c : String) : Err :=
  .errorf "pgxmig: error globbing" (some pattern) (.cause c)

/-- The error of line 40. -/
@[reducible] def schemaErr (inner : Err) : Err :=
  .errorf "pgxmig: error creating db_migrations table" none inner

/-- The error of line 45. -/
@[reducible] def readErr (filename c : String) : Err :=
  .errorf "pgxmig: error reading migration" (some filename) (.cause c)

/-- The error of line 51. -/
@[reducible] def statusErr (filename c : String) : Err :=
  .errorf "pgxmig: error checking migration status" (some filename) (.cause c)

/-- The error of line 57. -/
@[reducible] def recordErr (filename c : String) : Err :=
  .errorf "pgxmig: error updating migration status" (some filename) (.cause c)

/-- The error of line 60. -/
@[reducible] def execErr (filename c : String) : Err :=
  .errorf "pgxmig: error executing migration" (some filename) (.cause c)

/-- The error of line 65. -/
@[reducible] def commitErr (filename : String) (inner : Err) : Err :=
  .errorf "pgxmig: error commiting migration" (some filename) inner

/-- The file system handed to `Source`: what `fs.Glob` and `fs.ReadFile`
answer. -/
structure FS where
  glob : String → Except String (List String)
  readFile : String → Except String String

/-- Source defines a FS and correlated Glob to provide a source of
migrations. -/
structure Source where
  FS : FS
  Glob : String

/-- The durable state of the database. -/
structure DBState where
  /-- rows of `db_migrations`; `none` while the table does not exist -/
  ledger : Option (List String)
  /-- texts of the migration bodies, or of the parts of them, whose effects are
  committed, oldest first -/
  applied : List String
deriving DecidableEq, Repr

/-- The calls of one transaction that can fail. -/
inductive Stage where
  | begin
  | schema
  | status
  | record
  | body
  | commit
deriving DecidableEq, Repr

/-- The fault oracle of one run. -/
abbrev Faults := Nat → Stage → Option String

/-- The oracle of a run in which no database call fails. -/
def noFaults : Faults := fun _ _ => none

/-- The bodies that end their transaction themselves: `cuts data = some part`
when the text `data` holds a `commit` of its own, `part` being the text up to
and including that commit. -/
abbrev Cuts := String → Option String

/-- No body ends its transaction itself. -/
def noCuts : Cuts := fun _ => none

/-- Only the body `data` ends its transaction itself, after `part`. -/
def cutAt (data part : String) : Cuts :=
  fun d => if d = data then some part else none

/-- One call made by `Migrate`. -/
inductive Event where
  /-- `fs.Glob(s.FS, s.Glob)` -/
  | glob (pattern : String)
  /-- `fs.ReadFile(s.FS, filename)` -/
  | readFile (filename : String)
  /-- `db.Begin`, inside `pgx.BeginFunc` -/
  | begin
  /-- `tx.Exec(ctx, migrationSchemaSQL)` -/
  | createTable
  /-- `tx.QueryRow(ctx, alreadyDoneSQL, filename)` -/
  | status (filename : String)
  /-- `tx.Exec(ctx, "insert into db_migrations values ($1)", filename)` -/
  | record (filename : String)
  /-- `tx.Exec(ctx, string(data))` in the transaction of `filename` -/
  | body (filename : String) (data : String)
  /-- `tx.Commit`, inside `pgx.BeginFunc` -/
  | commit
  /-- `tx.Rollback`, inside `pgx.BeginFunc` -/
  | rollback
deriving DecidableEq, Repr

def migrationSchemaSQL : String :=
  "\n\tcreate table if not exists db_migrations (\n\t\tname text primary key\n\t)"

def alreadyDoneSQL : String := "select count(*) from db_migrations where name = $1"

def insertSQL : String := "insert into db_migrations values ($1)"

/-- The statement and arguments a database call sends, if it sends one. -/
def Event.sql : Event → Option (String × List String)
  | .createTable => some (migrationSchemaSQL, [])
  | .status filename => some (alreadyDoneSQL, [filename])
  | .record filename => some (insertSQL, [filename])
  | .body _ data => some (data, [])
  | _ => none

/-- The file or migration name a call is about. -/
def Event.name? : Event → Option String
  | .readFile filename => some filename
  | .status filename => some filename
  | .record filename => some filename
  | .body filename _ => some filename
  | _ => none

/-- Whether a call goes to the database. -/
def Event.isDB : Event → Bool
  | .glob _ => false
  | .readFile _ => false
  | _ => true

/-- Rows of `db_migrations` (none without the table). -/
def DBState.rows (db : DBState) : List String :=
  db.ledger.getD []

/-- Number of rows of `db_migrations` with the given name. -/
def DBState.count (db : DBState) (name : String) : Nat :=
  db.rows.count name

/-- Effect of `create table if not exists db_migrations (...)`. -/
def DBState.createTable (db : DBState) : DBState :=
  { db with ledger := some db.rows }

/-- `tx.Exec(ctx, migrationSchemaSQL)`. -/
def execSchema (flt : Stage → Option String) (db : DBState) : Except String DBState :=
  match flt .schema with
  | some c => .error c
  | none => .ok db.createTable

/-- `tx.QueryRow(ctx, alreadyDoneSQL, filename).Scan(&alreadyDone)`. -/
def queryAlreadyDone (flt : Stage → Option String) (db : DBState) (filename : String) :
    Except String Nat :=
  match flt .status with
  | some c => .error c
  | none =>
    match db.ledger with
    | none => .error "relation \"db_migrations\" does not exist"
    | some rows => .ok (rows.count filename)

/-- `tx.Exec(ctx, "insert into db_migrations values ($1)", filename)`. -/
def execInsert (flt : Stage → Option String) (db : DBState) (filename : String) :
    Except String DBState :=
  match flt .record with
  | some c => .error c
  | none =>
    match db.ledger with
    | none => .error "relation \"db_migrations\" does not exist"
    | some rows => .ok { db with ledger := some (rows ++ [filename]) }

/-- `tx.Exec(ctx, string(data))`, the body sent verbatim: the result of the
call and, when the body has ended the transaction with a commit of its own,
what that has made durable: the state of the transaction with the part of
the body before the statement that fails, or with the whole body when none
fails. -/
def execBody (flt : Stage → Option String) (cuts : Cuts) (db : DBState) (data : String) :
    Except String DBState × Option DBState :=
  match flt .body with
  | some c =>
    (.error c, (cuts data).map fun part => { db with applied := db.applied ++ [part] })
  | none =>
    (.ok { db with applied := db.applied ++ [data] },
      (cuts data).map fun _ => { db with applied := db.applied ++ [data] })

/-- `pgx.BeginFunc(ctx, db, fn)`: `fn` works on the state of the transaction
and reports its result, what a body has made durable by a commit of its own
(if one has), and the calls it made.  When `fn` fails or the commit fails,
what is durable is what such a body has committed, and otherwise the state
from before the transaction. -/
def BeginFunc (flt : Stage → Option String) (db : DBState)
    (fn : DBState → Except Err DBState × Option DBState × List Event) :
    Option Err × DBState × List Event :=
  match flt .begin with
  | some c => (some (.cause c), db, [.begin])
  | none =>
    match fn db with
    | (.error e, own, evs) => (some e, own.getD db, .begin :: evs ++ [.rollback])
    | (.ok db1, own, evs) =>
      match flt .commit with
      | some c => (some (.cause c), own.getD db, .begin :: evs ++ [.commit])
      | none => (none, db1, .begin :: evs ++ [.commit])

/-- The function given to the first `pgx.BeginFunc` (lines 35-38). -/
def schemaTx (flt : Stage → Option String) (db : DBState) :
    Except Err DBState × Option DBState × List Event :=
  match execSchema flt db with
  | .error c => (.error (.cause c), none, [.createTable])
  | .ok db1 => (.ok db1, none, [.createTable])

/-- The function given to `pgx.BeginFunc` for one migration (lines 47-63). -/
def migrationTx (flt : Stage → Option String) (cuts : Cuts) (filename data : String)
    (db : DBState) : Except Err DBState × Option DBState × List Event :=
  match queryAlreadyDone flt db filename with
  | .error c =>
    (.error (statusErr filename c), none, [.status filename])
  | .ok alreadyDone =>
    if alreadyDone = 1 then
      (.ok db, none, [.status filename])
    else
      match execInsert flt db filename with
      | .error c =>
        (.error (recordErr filename c), none, [.status filename, .record filename])
      | .ok db1 =>
        match execBody flt cuts db1 data with
        | (.error c, own) =>
          (.error (execErr filename c), own,
            [.status filename, .record filename, .body filename data])
        | (.ok db2, own) =>
          (.ok db2, own, [.status filename, .record filename, .body filename data])

/-- One iteration of the loop over `files` (lines 43-66); `none` lets the loop
go on. -/
def migrateOne (faults : Faults) (cuts : Cuts) (fs : FS) (n : Nat) (filename : String)
    (db : DBState) :
    Option Err × DBState × List Event :=
  match fs.readFile filename with
  | .error c =>
    (some (readErr filename c), db, [.readFile filename])
  | .ok data =>
    match BeginFunc (faults n) db (migrationTx (faults n) cuts filename data) with
    | (some e, db1, evs) =>
      (some (commitErr filename e), db1, .readFile filename :: evs)
    | (none, db1, evs) => (none, db1, .readFile filename :: evs)

/-- The loop `for _, filename := range files` (lines 42-67); `n` numbers the
transaction of the first file. -/
def migrateLoop (faults : Faults) (cuts : Cuts) (fs : FS) : Nat → List String → DBState →
    Option Err × DBState × List Event
  | _, [], db => (none, db, [])
  | n, filename :: rest, db =>
    match migrateOne faults cuts fs n filename db with
    | (some e, db1, evs) => (some e, db1, evs)
    | (none, db1, evs) =>
      match migrateLoop faults cuts fs (n + 1) rest db1 with
      | (r, db2, evs2) => (r, db2, evs ++ evs2)

/-- The order of `slices.Sort` on strings: lexicographic on the characters. -/
def nameLE (a b : String) : Prop := a.toList ≤ b.toList

instance nameLE.decidable : DecidableRel nameLE :=
  fun a b => inferInstanceAs (Decidable (a.toList ≤ b.toList))

/-- `slices.Sort(files)`. -/
def sortFiles (files : List String) : List String :=
  files.insertionSort nameLE

/-- Migrate runs the migrations on the target DB. -/
def Source.Migrate (s : Source) (faults : Faults) (cuts : Cuts) (db : DBState) :
    Option Err × DBState × List Event :=
  match s.FS.glob s.Glob with
  | .error c =>
    (some (globErr s.Glob c), db, [.glob s.Glob])
  | .ok files =>
    match BeginFunc (faults 0) db (schemaTx (faults 0)) with
    | (some e, db1, evs) =>
      (some (schemaErr e), db1, .glob s.Glob :: evs)
    | (none, db1, evs) =>
      match migrateLoop faults cuts s.FS 1 (sortFiles files) db1 with
      | (r, db2, evs2) => (r, db2, .glob s.Glob :: evs ++ evs2)

/-- Names whose body was sent to the database, in order. -/
def executed (trace : List Event) : List String :=
  trace.filterMap fun
    | .body filename _ => some filename
    | _ => none

/-- Names for which an insert into `db_migrations` was sent, in order. -/
def recorded (trace : List Event) : List String :=
  trace.filterMap fun
    | .record filename => some filename
    | _ => none

/-- Texts of the bodies sent to the database, in order. -/
def bodies (trace : List Event) : List String :=
  trace.filterMap fun
    | .body _ data => some data
    | _ => none

/-- Names whose file was read, in order. -/
def reads (trace : List Event) : List String :=
  trace.filterMap fun
    | .readFile filename => some filename
    | _ => none

/-- A file system holding exactly the given files. -/
def FS.ofFiles (files : List (String × String)) : FS where
  glob := fun _ => .ok (files.map Prod.fst)
  readFile := fun filename =>
    match files.lookup filename with
    | some data => .ok data
    | none => .error "file does not exist"

/-- The error kinds of the specification. -/
inductive Kind where
  | discovery
  | schema
  | read
  | statusCheck
  | record
  | execution
  | commit
deriving DecidableEq, Repr

/-- The kind an error presents to the caller: that of its outermost
`fmt.Errorf` layer, read off its message. -/
def Err.kind : Err → Option Kind
  | .cause _ => none
  | .errorf msg _ _ =>
    if msg = "pgxmig: error globbing" then some .discovery
    else if msg = "pgxmig: error creating db_migrations table" then some .schema
    else if msg = "pgxmig: error reading migration" then some .read
    else if msg = "pgxmig: error checking migration status" then some .statusCheck
    else if msg = "pgxmig: error updating migration status" then some .record
    else if msg = "pgxmig: error executing migration" then some .execution
    else if msg = "pgxmig: error commiting migration" then some .commit
    else none

/-- An oracle with a single fault: stage `st` of transaction `n` fails with
cause `c`. -/
def faultAt (n : Nat) (st : Stage) (c : String) : Faults :=
  fun m st2 => if m = n ∧ st2 = st then some c else none

/-- The ways one iteration of the loop can go, with the result of each. -/
inductive Step (faults : Faults) (cuts : Cuts) (fs : FS) (n : Nat) (f : String)
    (db : DBState) :
    Option Err × DBState × List Event → Prop where
  | readFail (c : String) (hread : fs.readFile f = .error c) :
    Step faults cuts fs n f db (some (readErr f c), db, [.readFile f])
  | beginFail (data c : String) (hread : fs.readFile f = .ok data)
      (hbegin : faults n .begin = some c) :
    Step faults cuts fs n f db (some (commitErr f (.cause c)), db, [.readFile f, .begin])
  | statusFail (data c : String) (hread : fs.readFile f = .ok data)
      (hbegin : faults n .begin = none)
      (hstatus : queryAlreadyDone (faults n) db f = .error c) :
    Step faults cuts fs n f db
      (some (commitErr f (statusErr f c)), db, [.readFile f, .begin, .status f, .rollback])
  | skipCommitFail (data c : String) (rows : List String) (hread : fs.readFile f = .ok data)
      (hbegin : faults n .begin = none) (hstatus : faults n .status = none)
      (hrows : db.ledger = some rows) (hcount : rows.count f = 1)
      (hcommit : faults n .commit = some c) :
    Step faults cuts fs n f db
      (some (commitErr f (.cause c)), db, [.readFile f, .begin, .status f, .commit])
  | skip (data : String) (rows : List String) (hread : fs.readFile f = .ok data)
      (hbegin : faults n .begin = none) (hstatus : faults n .status = none)
      (hrows : db.ledger = some rows) (hcount : rows.count f = 1)
      (hcommit : faults n .commit = none) :
    Step faults cuts fs n f db (none, db, [.readFile f, .begin, .status f, .commit])
  | recordFail (data c : String) (rows : List String) (hread : fs.readFile f = .ok data)
      (hbegin : faults n .begin = none) (hstatus : faults n .status = none)
      (hrows : db.ledger = some rows) (hcount : rows.count f ≠ 1)
      (hrecord : faults n .record = some c) :
    Step faults cuts fs n f db
      (some (commitErr f (recordErr f c)), db,
        [.readFile f, .begin, .status f, .record f, .rollback])
  | bodyFail (data c : String) (rows : List String) (hread : fs.readFile f = .ok data)
      (hbegin : faults n .begin = none) (hstatus : faults n .status = none)
      (hrows : db.ledger = some rows) (hcount : rows.count f ≠ 1)
      (hrecord : faults n .record = none) (hbody : faults n .body = some c)
      (hcut : cuts data = none) :
    Step faults cuts fs n f db
      (some (commitErr f (execErr f c)), db,
        [.readFile f, .begin, .status f, .record f, .body f data, .rollback])
  | bodyFailCut (data c part : String) (rows : List String)
      (hread : fs.readFile f = .ok data)
      (hbegin : faults n .begin = none) (hstatus : faults n .status = none)
      (hrows : db.ledger = some rows) (hcount : rows.count f ≠ 1)
      (hrecord : faults n .record = none) (hbody : faults n .body = some c)
      (hcut : cuts data = some part) :
    Step faults cuts fs n f db
      (some (commitErr f (execErr f c)),
        { ledger := some (rows ++ [f]), applied := db.applied ++ [part] },
        [.readFile f, .begin, .status f, .record f, .body f data, .rollback])
  | commitFail (data c : String) (rows : List String) (hread : fs.readFile f = .ok data)
      (hbegin : faults n .begin = none) (hstatus : faults n .status = none)
      (hrows : db.ledger = some rows) (hcount : rows.count f ≠ 1)
      (hrecord : faults n .record = none) (hbody : faults n .body = none)
      (hcommit : faults n .commit = some c) (hcut : cuts data = none) :
    Step faults cuts fs n f db
      (some (commitErr f (.cause c)), db,
        [.readFile f, .begin, .status f, .record f, .body f data, .commit])
  | commitFailCut (data c part : String) (rows : List String)
      (hread : fs.readFile f = .ok data)
      (hbegin : faults n .begin = none) (hstatus : faults n .status = none)
      (hrows : db.ledger = some rows) (hcount : rows.count f ≠ 1)
      (hrecord : faults n .record = none) (hbody : faults n .body = none)
      (hcommit : faults n .commit = some c) (hcut : cuts data = some part) :
    Step faults cuts fs n f db
      (some (commitErr f (.cause c)),
        { ledger := some (rows ++ [f]), applied := db.applied ++ [data] },
        [.readFile f, .begin, .status f, .record f, .body f data, .commit])
  | apply (data : String) (rows : List String) (hread : fs.readFile f = .ok data)
      (hbegin : faults n .begin = none) (hstatus : faults n .status = none)
      (hrows : db.ledger = some rows) (hcount : rows.count f ≠ 1)
      (hrecord : faults n .record = none) (hbody : faults n .body = none)
      (hcommit : faults n .commit = none) :
    Step faults cuts fs n f db
      (none, { ledger := some (rows ++ [f]), applied := db.applied ++ [data] },
        [.readFile f, .begin, .status f, .record f, .body f data, .commit])

/-! ## The order of names -/

theorem nameLE_iff (a b : String) : nameLE a b ↔ a ≤ b :=
  String.le_iff_toList_le.symm

theorem nameLE_total : IsTotal String nameLE :=
  ⟨fun a b => by simpa only [nameLE_iff] using le_total a b⟩

theorem nameLE_trans : IsTrans String nameLE :=
  ⟨fun a b c => by simpa only [nameLE_iff] using fun h1 h2 => le_trans h1 h2⟩

theorem nameLE_antisymm : IsAntisymm String nameLE :=
  ⟨fun a b => by simpa only [nameLE_iff] using fun h1 h2 => le_antisymm h1 h2⟩

theorem sortFiles_perm (files : List String) : (sortFiles files).Perm files :=
  List.perm_insertionSort nameLE files

theorem sortFiles_sorted (files : List String) : (sortFiles files).Sorted (· ≤ ·) := by
  haveI := nameLE_total
  haveI := nameLE_trans
  have h : (sortFiles files).Sorted nameLE := List.sorted_insertionSort nameLE files
  exact List.Pairwise.imp (fun {a b} hab => (nameLE_iff a b).mp hab) h

theorem sortFiles_congr {l1 l2 : List String} (h : l1.Perm l2) :
    sortFiles l1 = sortFiles l2 := by
  haveI := nameLE_total
  haveI := nameLE_trans
  haveI := nameLE_antisymm
  exact List.eq_of_perm_of_sorted
    (((sortFiles_perm l1).trans h).trans (sortFiles_perm l2).symm)
    (List.sorted_insertionSort nameLE l1) (List.sorted_insertionSort nameLE l2)

theorem mem_sortFiles {files : List String} {f : String} : f ∈ sortFiles files ↔ f ∈ files :=
  (sortFiles_perm files).mem_iff

theorem sortFiles_nodup {files : List String} (h : files.Nodup) : (sortFiles files).Nodup :=
  (sortFiles_perm files).nodup_iff.mpr h

/-! ## One iteration -/

theorem migrateOne_step (faults : Faults) (cuts : Cuts) (fs : FS) (n : Nat) (f : String)
    (db : DBState) :
    Step faults cuts fs n f db (migrateOne faults cuts fs n f db) := by
  unfold migrateOne
  cases hread : fs.readFile f with
  | error c => exact Step.readFail c hread
  | ok data =>
    simp only [BeginFunc]
    cases hbegin : faults n .begin with
    | some c => exact Step.beginFail data c hread hbegin
    | none =>
      simp only [migrationTx]
      cases hq : queryAlreadyDone (faults n) db f with
      | error c => exact Step.statusFail data c hread hbegin hq
      | ok k =>
        have hq2 := hq
        unfold queryAlreadyDone at hq2
        cases hstatus : faults n .status with
        | some c => simp [hstatus] at hq2
        | none =>
          cases hrows : db.ledger with
          | none => simp [hstatus, hrows] at hq2
          | some rows =>
            simp only [hstatus, hrows, Except.ok.injEq] at hq2
            subst hq2
            by_cases hcount : rows.count f = 1
            · simp only [hcount, if_true]
              cases hcommit : faults n .commit with
              | some c => exact Step.skipCommitFail data c rows hread hbegin hstatus hrows hcount hcommit
              | none => exact Step.skip data rows hread hbegin hstatus hrows hcount hcommit
            · simp only [hcount, if_false, execInsert, hrows]
              cases hrecord : faults n .record with
              | some c =>
                exact Step.recordFail data c rows hread hbegin hstatus hrows hcount hrecord
              | none =>
                simp only [execBody]
                cases hbody : faults n .body with
                | some c =>
                  cases hcut : cuts data with
                  | none =>
                    exact Step.bodyFail data c rows hread hbegin hstatus hrows hcount hrecord
                      hbody hcut
                  | some part =>
                    exact Step.bodyFailCut data c part rows hread hbegin hstatus hrows hcount
                      hrecord hbody hcut
                | none =>
                  cases hcommit : faults n .commit with
                  | some c =>
                    cases hcut : cuts data with
                    | none =>
                      exact Step.commitFail data c rows hread hbegin hstatus hrows hcount hrecord
                        hbody hcommit hcut
                    | some part =>
                      exact Step.commitFailCut data c part rows hread hbegin hstatus hrows hcount
                        hrecord hbody hcommit hcut
                  | none =>
                    exact Step.apply data rows hread hbegin hstatus hrows hcount hrecord hbody
                      hcommit

theorem migrateLoop_cons (faults : Faults) (cuts : Cuts) (fs : FS) (n : Nat) (f : String)
    (rest : List String) (db : DBState) :
    migrateLoop faults cuts fs n (f :: rest) db =
      match migrateOne faults cuts fs n f db with
      | (some e, db1, evs) => (some e, db1, evs)
      | (none, db1, evs) =>
        ((migrateLoop faults cuts fs (n + 1) rest db1).1, (migrateLoop faults cuts fs (n + 1) rest db1).2.1,
          evs ++ (migrateLoop faults cuts fs (n + 1) rest db1).2.2) := by
  rw [migrateLoop]

/-- What one iteration does to the database: nothing, or the record of `f`
becomes durable together with the body of `f`, or with a part of it. -/
theorem step_db {faults : Faults} {cuts : Cuts} {fs : FS} {n : Nat} {f : String} {db : DBState}
    {out : Option Err × DBState × List Event} (hs : Step faults cuts fs n f db out) :
    out.2.1 = db ∨
      (∃ rows x, db.ledger = some rows ∧ rows.count f ≠ 1 ∧
        out.2.1 = { ledger := some (rows ++ [f]), applied := db.applied ++ [x] }) := by
  cases hs with
  | apply data rows hread hbegin hstatus hrows hcount hrecord hbody hcommit =>
    exact Or.inr ⟨rows, data, hrows, hcount, rfl⟩
  | bodyFailCut data c part rows hread hbegin hstatus hrows hcount hrecord hbody hcut =>
    exact Or.inr ⟨rows, part, hrows, hcount, rfl⟩
  | commitFailCut data c part rows hread hbegin hstatus hrows hcount hrecord hbody hcommit hcut =>
    exact Or.inr ⟨rows, data, hrows, hcount, rfl⟩
  | _ => exact Or.inl rfl

theorem count_append_self (rows : List String) (f name : String) :
    (rows ++ [f]).count name = rows.count name + if f = name then 1 else 0 := by
  rw [List.count_append, List.count_singleton']

/-- Frame of one iteration on the ledger. -/
theorem step_frame {faults : Faults} {cuts : Cuts} {fs : FS} {n : Nat} {f : String} {db : DBState}
    {out : Option Err × DBState × List Event} (hs : Step faults cuts fs n f db out) :
    db.rows <+: out.2.1.rows ∧ db.applied <+: out.2.1.applied ∧
      (db.ledger.isSome → out.2.1.ledger.isSome) ∧
      ∀ name, (db.count name = 1 → out.2.1.count name = 1) ∧
        (name ≠ f → out.2.1.count name = db.count name) := by
  rcases step_db hs with h | ⟨rows, data, hrows, hcount, h⟩
  · rw [h]
    exact ⟨List.prefix_refl _, List.prefix_refl _, id, fun name => ⟨id, fun _ => rfl⟩⟩
  · rw [h]
    refine ⟨?_, ?_, fun _ => rfl, fun name => ⟨?_, ?_⟩⟩
    · simp [DBState.rows, hrows]
    · simp
    · intro h1
      simp only [DBState.count, DBState.rows, hrows, Option.getD_some] at h1 ⊢
      rw [count_append_self]
      by_cases hf : f = name
      · subst hf; exact absurd h1 hcount
      · simp [hf, h1]
    · intro hne
      simp only [DBState.count, DBState.rows, hrows, Option.getD_some]
      rw [count_append_self]
      simp [Ne.symm hne]

/-- Frame of the loop on the ledger: rows are only appended, a name with
exactly one record keeps exactly one, and names outside the run keep their
count. -/
theorem migrateLoop_frame (faults : Faults) (cuts : Cuts) (fs : FS) :
    ∀ (l : List String) (n : Nat) (db : DBState),
      db.rows <+: (migrateLoop faults cuts fs n l db).2.1.rows ∧
      db.applied <+: (migrateLoop faults cuts fs n l db).2.1.applied ∧
      (db.ledger.isSome → (migrateLoop faults cuts fs n l db).2.1.ledger.isSome) ∧
      ∀ name, (db.count name = 1 → (migrateLoop faults cuts fs n l db).2.1.count name = 1) ∧
        (name ∉ l → (migrateLoop faults cuts fs n l db).2.1.count name = db.count name) := by
  intro l
  induction l with
  | nil =>
    intro n db
    simp [migrateLoop]
  | cons f rest ih =>
    intro n db
    rw [migrateLoop_cons]
    have hs := step_frame (migrateOne_step faults cuts fs n f db)
    rcases hout : migrateOne faults cuts fs n f db with ⟨_ | e, db1, evs⟩
    · rw [hout] at hs
      simp only at hs ⊢
      obtain ⟨h1, h2, h3, h4⟩ := hs
      obtain ⟨i1, i2, i3, i4⟩ := ih (n + 1) db1
      refine ⟨h1.trans i1, h2.trans i2, fun h => i3 (h3 h), fun name => ⟨?_, ?_⟩⟩
      · intro h
        exact (i4 name).1 ((h4 name).1 h)
      · intro h
        rw [List.mem_cons, not_or] at h
        rw [(i4 name).2 h.2, (h4 name).2 h.1]
    · rw [hout] at hs
      simp only at hs ⊢
      obtain ⟨h1, h2, h3, h4⟩ := hs
      refine ⟨h1, h2, h3, fun name => ⟨(h4 name).1, ?_⟩⟩
      intro h
      rw [List.mem_cons, not_or] at h
      exact (h4 name).2 h.1

/-! ## The whole run -/

/-- The ways the transaction that creates the table can go. -/
theorem schema_cases (flt : Stage → Option String) (db : DBState) :
    (∃ c, flt .begin = some c ∧
      BeginFunc flt db (schemaTx flt) = (some (.cause c), db, [.begin])) ∨
    (∃ c, flt .begin = none ∧ flt .schema = some c ∧
      BeginFunc flt db (schemaTx flt) = (some (.cause c), db, [.begin, .createTable, .rollback])) ∨
    (∃ c, flt .begin = none ∧ flt .schema = none ∧ flt .commit = some c ∧
      BeginFunc flt db (schemaTx flt) = (some (.cause c), db, [.begin, .createTable, .commit])) ∨
    (flt .begin = none ∧ flt .schema = none ∧ flt .commit = none ∧
      BeginFunc flt db (schemaTx flt) = (none, db.createTable, [.begin, .createTable, .commit])) := by
  unfold BeginFunc schemaTx execSchema
  cases hbegin : flt .begin with
  | some c => exact Or.inl ⟨c, rfl, rfl⟩
  | none =>
    cases hschema : flt .schema with
    | some c => exact Or.inr (Or.inl ⟨c, rfl, rfl, rfl⟩)
    | none =>
      cases hcommit : flt .commit with
      | some c => exact Or.inr (Or.inr (Or.inl ⟨c, rfl, rfl, rfl, rfl⟩))
      | none => exact Or.inr (Or.inr (Or.inr ⟨rfl, rfl, rfl, rfl⟩))

/-- A run whose glob succeeds either stops in the transaction that creates
the table, leaving the database as it was, or goes through the loop over the
sorted names. -/
theorem Migrate_cases (s : Source) (faults : Faults) (cuts : Cuts) (db : DBState) (files : List String)
    (hglob : s.FS.glob s.Glob = .ok files) :
    (∃ c evs, s.Migrate faults cuts db = (some (schemaErr (.cause c)), db, .glob s.Glob :: evs) ∧
      ((faults 0 .begin = some c ∧ evs = [.begin]) ∨
        (faults 0 .schema = some c ∧ evs = [.begin, .createTable, .rollback]) ∨
        (faults 0 .commit = some c ∧ evs = [.begin, .createTable, .commit]))) ∨
    (faults 0 .begin = none ∧ faults 0 .schema = none ∧ faults 0 .commit = none ∧
      s.Migrate faults cuts db =
        ((migrateLoop faults cuts s.FS 1 (sortFiles files) db.createTable).1,
          (migrateLoop faults cuts s.FS 1 (sortFiles files) db.createTable).2.1,
          .glob s.Glob :: .begin :: .createTable :: .commit ::
            (migrateLoop faults cuts s.FS 1 (sortFiles files) db.createTable).2.2)) := by
  unfold Source.Migrate
  rw [hglob]
  rcases schema_cases (faults 0) db with ⟨c, hc, h⟩ | ⟨c, _, hc, h⟩ | ⟨c, _, _, hc, h⟩ |
    ⟨h1, h2, h3, h⟩
  · exact Or.inl ⟨c, _, by rw [h], Or.inl ⟨hc, rfl⟩⟩
  · exact Or.inl ⟨c, _, by rw [h], Or.inr (Or.inl ⟨hc, rfl⟩)⟩
  · exact Or.inl ⟨c, _, by rw [h], Or.inr (Or.inr ⟨hc, rfl⟩)⟩
  · refine Or.inr ⟨h1, h2, h3, ?_⟩
    rw [h]
    rfl

theorem createTable_rows (db : DBState) : db.createTable.rows = db.rows := rfl

theorem createTable_count (db : DBState) (name : String) :
    db.createTable.count name = db.count name := rfl

theorem createTable_applied (db : DBState) : db.createTable.applied = db.applied := rfl

theorem createTable_of_some {db : DBState} {rows : List String} (h : db.ledger = some rows) :
    db.createTable = db := by
  cases db with
  | mk ledger applied =>
    simp only at h
    subst h
    rfl

theorem Migrate_of_glob_error (s : Source) (faults : Faults) (cuts : Cuts) (db : DBState) (c : String)
    (hglob : s.FS.glob s.Glob = .error c) :
    s.Migrate faults cuts db = (some (globErr s.Glob c), db, [.glob s.Glob]) := by
  unfold Source.Migrate
  rw [hglob]

/-! ## Discovery failure -/

/-- C7: when the glob fails, Migrate returns the globbing error, which carries
the pattern and wraps the cause, the only call it has made is the glob itself
(no transaction was begun and no statement reached the database), and the
database state, the existence of the tracking table included, is unchanged. -/
theorem Migrate_discovery_failure (s : Source) (faults : Faults) (cuts : Cuts) (db : DBState) (c : String)
    (hglob : s.FS.glob s.Glob = .error c) :
    (s.Migrate faults cuts db).1 = some (globErr s.Glob c) ∧
      (s.Migrate faults cuts db).2.1 = db ∧
      (s.Migrate faults cuts db).2.2 = [.glob s.Glob] ∧
      (∀ ev ∈ (s.Migrate faults cuts db).2.2, ev.isDB = false) ∧
      ((s.Migrate faults cuts db).2.1.ledger.isSome ↔ db.ledger.isSome) := by
  rw [Migrate_of_glob_error s faults cuts db c hglob]
  simp [Event.isDB]

/-- Witness for C7: a malformed pattern on a database without the tracking
table. -/
theorem Migrate_discovery_failure_witness :
    (Source.Migrate ⟨⟨fun _ => .error "syntax error in pattern", fun _ => .ok ""⟩, "[a"⟩
        noFaults noCuts ⟨none, []⟩).1 = some (globErr "[a" "syntax error in pattern") ∧
      (Source.Migrate ⟨⟨fun _ => .error "syntax error in pattern", fun _ => .ok ""⟩, "[a"⟩
        noFaults noCuts ⟨none, []⟩).2.1 = ⟨none, []⟩ :=
  have h := Migrate_discovery_failure
    ⟨⟨fun _ => .error "syntax error in pattern", fun _ => .ok ""⟩, "[a"⟩ noFaults noCuts ⟨none, []⟩
    "syntax error in pattern" rfl
  ⟨h.1, h.2.1⟩

/-! ## The ledger only grows -/

/-- C8, as the code has it: whatever the outcome of Migrate, the rows of the
ledger before the run are a prefix of the rows after it (no record is deleted
or updated, records are only appended), the tracking table is never dropped,
no name has fewer records after the run than before, a name with exactly one
record before has exactly one after, and a name that is not in the discovered
run has the same number of records before and after. -/
theorem Migrate_ledger_append_only (s : Source) (faults : Faults) (cuts : Cuts) (db : DBState) :
    db.rows <+: (s.Migrate faults cuts db).2.1.rows ∧
      (db.ledger.isSome → (s.Migrate faults cuts db).2.1.ledger.isSome) ∧
      ∀ name, db.count name ≤ (s.Migrate faults cuts db).2.1.count name ∧
        (db.count name = 1 → (s.Migrate faults cuts db).2.1.count name = 1) ∧
        (∀ files, s.FS.glob s.Glob = .ok files → name ∉ files →
          (s.Migrate faults cuts db).2.1.count name = db.count name) := by
  have key : db.rows <+: (s.Migrate faults cuts db).2.1.rows ∧
      (db.ledger.isSome → (s.Migrate faults cuts db).2.1.ledger.isSome) ∧
      ∀ name, (db.count name = 1 → (s.Migrate faults cuts db).2.1.count name = 1) ∧
        (∀ files, s.FS.glob s.Glob = .ok files → name ∉ files →
          (s.Migrate faults cuts db).2.1.count name = db.count name) := by
    cases hglob : s.FS.glob s.Glob with
    | error c =>
      rw [Migrate_of_glob_error s faults cuts db c hglob]
      exact ⟨List.prefix_refl _, id, fun name => ⟨id, fun _ _ _ => rfl⟩⟩
    | ok files =>
      rcases Migrate_cases s faults cuts db files hglob with ⟨c, evs, h, _⟩ | ⟨_, _, _, h⟩
      · rw [h]
        exact ⟨List.prefix_refl _, id, fun name => ⟨id, fun _ _ _ => rfl⟩⟩
      · rw [h]
        obtain ⟨h1, _, h3, h4⟩ := migrateLoop_frame faults cuts s.FS (sortFiles files) 1 db.createTable
        refine ⟨h1, fun _ => h3 rfl, fun name => ⟨(h4 name).1, ?_⟩⟩
        intro files2 hf hmem
        cases hf
        exact (h4 name).2 (fun hm => hmem (mem_sortFiles.mp hm))
  refine ⟨key.1, key.2.1, fun name => ⟨?_, (key.2.2 name).1, (key.2.2 name).2⟩⟩
  exact key.1.sublist.count_le name

/-- Witness for C8: a record of a name outside the run and a record of a name
of the run are both still single after the run. -/
theorem Migrate_ledger_append_only_witness :
    (Source.Migrate ⟨FS.ofFiles [("001_a.sql", "a"), ("002_b.sql", "b")], "*.sql"⟩ noFaults noCuts
        ⟨some ["000_old.sql", "001_a.sql"], []⟩).2.1.count "000_old.sql" = 1 ∧
      (Source.Migrate ⟨FS.ofFiles [("001_a.sql", "a"), ("002_b.sql", "b")], "*.sql"⟩ noFaults noCuts
        ⟨some ["000_old.sql", "001_a.sql"], []⟩).2.1.count "001_a.sql" = 1 :=
  have h := (Migrate_ledger_append_only
    ⟨FS.ofFiles [("001_a.sql", "a"), ("002_b.sql", "b")], "*.sql"⟩ noFaults noCuts
    ⟨some ["000_old.sql", "001_a.sql"], []⟩).2.2
  ⟨((h "000_old.sql").2.2 ["001_a.sql", "002_b.sql"] rfl (by decide)).trans (by decide),
    (h "001_a.sql").2.1 (by decide)⟩

/-- Counterexample to C8 as stated: a tracking table that holds two records
of a name of the run holds three after a run without failure, so the name is
not recorded with the same count. -/
theorem Migrate_ledger_count_changes :
    (DBState.mk (some ["001_init.sql", "001_init.sql"]) []).count "001_init.sql" = 2 ∧
      (Source.Migrate ⟨FS.ofFiles [("001_init.sql", "create table t ()")], "*.sql"⟩ noFaults noCuts
        ⟨some ["001_init.sql", "001_init.sql"], []⟩).1 = none ∧
      (Source.Migrate ⟨FS.ofFiles [("001_init.sql", "create table t ()")], "*.sql"⟩ noFaults noCuts
        ⟨some ["001_init.sql", "001_init.sql"], []⟩).2.1.count "001_init.sql" = 3 := by
  decide

/-! ## Runs that succeed -/

/-- An iteration that lets the loop go on either skipped a name with exactly
one record or committed the record and the body of a name without exactly
one. -/
theorem step_success {faults : Faults} {cuts : Cuts} {fs : FS} {n : Nat} {f : String} {db : DBState}
    {out : Option Err × DBState × List Event} (hs : Step faults cuts fs n f db out)
    (h : out.1 = none) :
    ∃ data rows, fs.readFile f = .ok data ∧ db.ledger = some rows ∧
      ((rows.count f = 1 ∧ out = (none, db, [.readFile f, .begin, .status f, .commit])) ∨
       (rows.count f ≠ 1 ∧
        out = (none, { ledger := some (rows ++ [f]), applied := db.applied ++ [data] },
          [.readFile f, .begin, .status f, .record f, .body f data, .commit]))) := by
  cases hs with
  | skip data rows hread hbegin hstatus hrows hcount hcommit =>
    exact ⟨data, rows, hread, hrows, Or.inl ⟨hcount, rfl⟩⟩
  | apply data rows hread hbegin hstatus hrows hcount hrecord hbody hcommit =>
    exact ⟨data, rows, hread, hrows, Or.inr ⟨hcount, rfl⟩⟩
  | _ => simp at h

theorem migrateLoop_cons_none {faults : Faults} {cuts : Cuts} {fs : FS} {n : Nat} {f : String}
    {rest : List String} {db : DBState}
    (h : (migrateLoop faults cuts fs n (f :: rest) db).1 = none) :
    ∃ db1 evs, migrateOne faults cuts fs n f db = (none, db1, evs) ∧
      (migrateLoop faults cuts fs (n + 1) rest db1).1 = none ∧
      (migrateLoop faults cuts fs n (f :: rest) db).2.1 =
        (migrateLoop faults cuts fs (n + 1) rest db1).2.1 ∧
      (migrateLoop faults cuts fs n (f :: rest) db).2.2 =
        evs ++ (migrateLoop faults cuts fs (n + 1) rest db1).2.2 := by
  rw [migrateLoop_cons] at h ⊢
  rcases hout : migrateOne faults cuts fs n f db with ⟨_ | e, db1, evs⟩
  · rw [hout] at h
    exact ⟨db1, evs, rfl, h, rfl, rfl⟩
  · rw [hout] at h
    simp at h

theorem migrateLoop_cons_some {faults : Faults} {cuts : Cuts} {fs : FS} {n : Nat} {f : String}
    {rest : List String} {db db1 : DBState} {e : Err} {evs : List Event}
    (h : migrateOne faults cuts fs n f db = (some e, db1, evs)) :
    migrateLoop faults cuts fs n (f :: rest) db = (some e, db1, evs) := by
  rw [migrateLoop_cons, h]

theorem migrateLoop_cons_ok {faults : Faults} {cuts : Cuts} {fs : FS} {n : Nat} {f : String}
    {rest : List String} {db db1 : DBState} {evs : List Event}
    (h : migrateOne faults cuts fs n f db = (none, db1, evs)) :
    migrateLoop faults cuts fs n (f :: rest) db =
      ((migrateLoop faults cuts fs (n + 1) rest db1).1, (migrateLoop faults cuts fs (n + 1) rest db1).2.1,
        evs ++ (migrateLoop faults cuts fs (n + 1) rest db1).2.2) := by
  rw [migrateLoop_cons, h]

theorem executed_append (t1 t2 : List Event) : executed (t1 ++ t2) = executed t1 ++ executed t2 := by
  simp [executed, List.filterMap_append]

theorem recorded_append (t1 t2 : List Event) : recorded (t1 ++ t2) = recorded t1 ++ recorded t2 := by
  simp [recorded, List.filterMap_append]

theorem reads_append (t1 t2 : List Event) : reads (t1 ++ t2) = reads t1 ++ reads t2 := by
  simp [reads, List.filterMap_append]

/-- A loop that succeeds from a ledger without duplicates leaves exactly one
record for every name of the run, sends the body and the insert of a name
exactly when the name had no record, and touches no other name. -/
theorem migrateLoop_success (faults : Faults) (cuts : Cuts) (fs : FS) :
    ∀ (l : List String) (n : Nat) (db : DBState),
      (migrateLoop faults cuts fs n l db).1 = none → (∀ name, db.count name ≤ 1) →
      ∀ name,
        (migrateLoop faults cuts fs n l db).2.1.count name = (if name ∈ l then 1 else db.count name) ∧
        (executed (migrateLoop faults cuts fs n l db).2.2).count name =
          (if name ∈ l ∧ db.count name = 0 then 1 else 0) ∧
        (recorded (migrateLoop faults cuts fs n l db).2.2).count name =
          (if name ∈ l ∧ db.count name = 0 then 1 else 0) := by
  intro l
  induction l with
  | nil =>
    intro n db _ _ name
    simp [migrateLoop, executed, recorded]
  | cons f rest ih =>
    intro n db h hle name
    obtain ⟨db1, evs, hone, hrest, hdb, htr⟩ := migrateLoop_cons_none h
    rw [hdb, htr, executed_append, recorded_append, List.count_append, List.count_append]
    have hs := migrateOne_step faults cuts fs n f db
    rw [hone] at hs
    obtain ⟨data, rows, -, hrows, hcase⟩ := step_success hs rfl
    have hcnt : ∀ x, db.count x = rows.count x := fun x => by
      simp [DBState.count, DBState.rows, hrows]
    rcases hcase with ⟨hcount, hout⟩ | ⟨hcount, hout⟩
    · -- skipped
      simp only [Prod.mk.injEq, true_and] at hout
      obtain ⟨rfl, rfl⟩ := hout
      obtain ⟨i1, i2, i3⟩ := ih (n + 1) db1 hrest hle name
      rw [i1, i2, i3]
      by_cases hname : name = f
      · subst hname
        have h1 : db1.count name = 1 := by rw [hcnt]; exact hcount
        simp [executed, recorded, h1]
      · simp [executed, recorded, hname]
    · -- applied
      simp only [Prod.mk.injEq, true_and] at hout
      obtain ⟨rfl, rfl⟩ := hout
      have h0 : rows.count f = 0 := by
        have := hle f
        rw [hcnt] at this
        omega
      have hnew : ∀ x, (DBState.mk (some (rows ++ [f])) (db.applied ++ [data])).count x =
          rows.count x + if f = x then 1 else 0 := fun x => by
        simp only [DBState.count, DBState.rows, Option.getD_some]
        exact count_append_self rows f x
      have hle1 : ∀ x, (DBState.mk (some (rows ++ [f])) (db.applied ++ [data])).count x ≤ 1 := by
        intro x
        rw [hnew]
        by_cases hx : f = x
        · subst hx; simp [h0]
        · have := hle x
          rw [hcnt] at this
          simp [hx, this]
      obtain ⟨i1, i2, i3⟩ := ih (n + 1) _ hrest hle1 name
      rw [i1, i2, i3, hnew, hcnt]
      by_cases hname : f = name
      · subst hname
        simp [executed, recorded, h0]
      · have hname2 : name ≠ f := fun h => hname h.symm
        simp [executed, recorded, hname, hname2]

/-- A loop that succeeds has read every file of the run. -/
theorem migrateLoop_success_reads (faults : Faults) (cuts : Cuts) (fs : FS) :
    ∀ (l : List String) (n : Nat) (db : DBState),
      (migrateLoop faults cuts fs n l db).1 = none → ∀ f ∈ l, ∃ data, fs.readFile f = .ok data := by
  intro l
  induction l with
  | nil => intro n db _ f hf; simp at hf
  | cons f rest ih =>
    intro n db h g hg
    obtain ⟨db1, evs, hone, hrest, -, -⟩ := migrateLoop_cons_none h
    have hs := migrateOne_step faults cuts fs n f db
    rw [hone] at hs
    obtain ⟨data, rows, hread, -, -⟩ := step_success hs rfl
    rcases List.mem_cons.mp hg with rfl | hg
    · exact ⟨data, hread⟩
    · exact ih (n + 1) db1 hrest g hg

/-- C4: from a ledger in which no name has more than one record, a run that
returns no error leaves the tracking table in place with exactly one record for
every discovered name and an unchanged count for every other name, and it has
sent the body, and the insert, of a name exactly once when the name is
discovered and had no record before the run and never otherwise; with an empty
source and a working first transaction Migrate returns no error, has created
the table with the records it had, and has sent no insert. -/
theorem Migrate_exactly_once (s : Source) (faults : Faults) (cuts : Cuts) (db : DBState)
    (files : List String) (hglob : s.FS.glob s.Glob = .ok files)
    (hledger : ∀ name, db.count name ≤ 1) :
    ((s.Migrate faults cuts db).1 = none →
      (s.Migrate faults cuts db).2.1.ledger.isSome ∧
      ∀ name,
        (name ∈ files → (s.Migrate faults cuts db).2.1.count name = 1) ∧
        (name ∉ files → (s.Migrate faults cuts db).2.1.count name = db.count name) ∧
        (executed (s.Migrate faults cuts db).2.2).count name =
          (if name ∈ files ∧ db.count name = 0 then 1 else 0) ∧
        (recorded (s.Migrate faults cuts db).2.2).count name =
          (if name ∈ files ∧ db.count name = 0 then 1 else 0)) ∧
    (files = [] → (∀ st, faults 0 st = none) →
      (s.Migrate faults cuts db).1 = none ∧
      (s.Migrate faults cuts db).2.1 = { ledger := some db.rows, applied := db.applied } ∧
      (s.Migrate faults cuts db).2.2 = [.glob s.Glob, .begin, .createTable, .commit] ∧
      recorded (s.Migrate faults cuts db).2.2 = []) := by
  constructor
  · intro hok
    rcases Migrate_cases s faults cuts db files hglob with ⟨c, evs, h, _⟩ | ⟨_, _, _, h⟩
    · rw [h] at hok
      simp at hok
    · rw [h] at hok ⊢
      simp only at hok ⊢
      have hsome := (migrateLoop_frame faults cuts s.FS (sortFiles files) 1 db.createTable).2.2.1 rfl
      refine ⟨hsome, fun name => ?_⟩
      obtain ⟨h1, h2, h3⟩ :=
        migrateLoop_success faults cuts s.FS (sortFiles files) 1 db.createTable hok hledger name
      simp only [mem_sortFiles, createTable_count] at h1 h2 h3
      refine ⟨fun hm => by rw [h1, if_pos hm], fun hm => by rw [h1, if_neg hm], ?_, ?_⟩
      · rw [← h2]
        simp [executed]
      · rw [← h3]
        simp [recorded]
  · intro hnil hflt
    subst hnil
    rcases Migrate_cases s faults cuts db [] hglob with
      ⟨c, evs, h, ⟨hc, _⟩ | ⟨hc, _⟩ | ⟨hc, _⟩⟩ | ⟨_, _, _, h⟩
    · rw [hflt] at hc; simp at hc
    · rw [hflt] at hc; simp at hc
    · rw [hflt] at hc; simp at hc
    · rw [h]
      simp [sortFiles, migrateLoop, DBState.createTable, recorded]

/-- Witness for C4: `001_a.sql` is recorded, `002_b.sql` is not; the run sends
the body of `002_b.sql` once and that of `001_a.sql` not at all.  And a run
with an empty source on a database without the tracking table creates the
table and nothing else. -/
theorem Migrate_exactly_once_witness :
    ((Source.Migrate ⟨FS.ofFiles [("001_a.sql", "a"), ("002_b.sql", "b")], "*.sql"⟩ noFaults noCuts
        ⟨some ["001_a.sql"], []⟩).2.1.count "002_b.sql" = 1 ∧
      (executed (Source.Migrate ⟨FS.ofFiles [("001_a.sql", "a"), ("002_b.sql", "b")], "*.sql"⟩
        noFaults noCuts ⟨some ["001_a.sql"], []⟩).2.2).count "002_b.sql" = 1 ∧
      (executed (Source.Migrate ⟨FS.ofFiles [("001_a.sql", "a"), ("002_b.sql", "b")], "*.sql"⟩
        noFaults noCuts ⟨some ["001_a.sql"], []⟩).2.2).count "001_a.sql" = 0) ∧
    ((Source.Migrate ⟨FS.ofFiles [], "*.sql"⟩ noFaults noCuts ⟨none, []⟩).1 = none ∧
      (Source.Migrate ⟨FS.ofFiles [], "*.sql"⟩ noFaults noCuts ⟨none, []⟩).2.1 = ⟨some [], []⟩) :=
  have h0 := (Migrate_exactly_once ⟨FS.ofFiles [], "*.sql"⟩ noFaults noCuts ⟨none, []⟩ [] rfl
    (fun name => by simp [DBState.count, DBState.rows])).2 rfl (fun _ => rfl)
  have h := (Migrate_exactly_once
    ⟨FS.ofFiles [("001_a.sql", "a"), ("002_b.sql", "b")], "*.sql"⟩ noFaults noCuts
    ⟨some ["001_a.sql"], []⟩ ["001_a.sql", "002_b.sql"] rfl
    (fun name => by
      simp only [DBState.count, DBState.rows, Option.getD_some, List.count_cons, List.count_nil]
      split <;> omega)).1 (by decide)
  ⟨⟨(h.2 "002_b.sql").1 (by decide), (h.2 "002_b.sql").2.2.1.trans (by decide),
    (h.2 "001_a.sql").2.2.1.trans (by decide)⟩, h0.1, h0.2.1⟩

/-! ## Running again -/

theorem count_of_rows {db : DBState} {rows : List String} (h : db.ledger = some rows)
    (name : String) : db.count name = rows.count name := by
  simp [DBState.count, DBState.rows, h]

/-- A loop over names that all have exactly one record changes nothing and
sends neither an insert nor a body; when no call fails it returns no error and
every name takes the skipped branch. -/
theorem migrateLoop_all_recorded (faults : Faults) (cuts : Cuts) (fs : FS) :
    ∀ (l : List String) (n : Nat) (db : DBState), (∀ f ∈ l, db.count f = 1) →
      (migrateLoop faults cuts fs n l db).2.1 = db ∧
      executed (migrateLoop faults cuts fs n l db).2.2 = [] ∧
      recorded (migrateLoop faults cuts fs n l db).2.2 = [] ∧
      ((∀ f ∈ l, ∃ data, fs.readFile f = .ok data) → (∀ i st, faults i st = none) →
        (migrateLoop faults cuts fs n l db).1 = none ∧
        (migrateLoop faults cuts fs n l db).2.2 =
          l.flatMap fun f => [.readFile f, .begin, .status f, .commit]) := by
  intro l
  induction l with
  | nil =>
    intro n db _
    simp [migrateLoop, executed, recorded]
  | cons f rest ih =>
    intro n db hall
    have hf : db.count f = 1 := hall f (List.mem_cons_self _ _)
    obtain ⟨i1, i2, i3, i4⟩ := ih (n + 1) db (fun g hg => hall g (List.mem_cons_of_mem _ hg))
    have hs := migrateOne_step faults cuts fs n f db
    generalize hout : migrateOne faults cuts fs n f db = out at hs
    cases hs with
    | readFail c hread =>
      rw [migrateLoop_cons_some hout]
      refine ⟨rfl, rfl, rfl, fun hr _ => ?_⟩
      obtain ⟨data, hd⟩ := hr f (List.mem_cons_self _ _)
      rw [hd] at hread
      simp at hread
    | beginFail data c hread hbegin =>
      rw [migrateLoop_cons_some hout]
      refine ⟨rfl, rfl, rfl, fun _ hn => ?_⟩
      rw [hn] at hbegin
      simp at hbegin
    | statusFail data c hread hbegin hstatus =>
      rw [migrateLoop_cons_some hout]
      refine ⟨rfl, rfl, rfl, fun _ hn => ?_⟩
      exfalso
      unfold queryAlreadyDone at hstatus
      rw [hn] at hstatus
      cases hrows : db.ledger with
      | none => simp [DBState.count, DBState.rows, hrows] at hf
      | some rows => simp [hrows] at hstatus
    | skipCommitFail data c rows hread hbegin hstatus hrows hcount hcommit =>
      rw [migrateLoop_cons_some hout]
      refine ⟨rfl, rfl, rfl, fun _ hn => ?_⟩
      rw [hn] at hcommit
      simp at hcommit
    | skip data rows hread hbegin hstatus hrows hcount hcommit =>
      rw [migrateLoop_cons_ok hout]
      refine ⟨i1, ?_, ?_, fun hr hn => ?_⟩
      · rw [executed_append, i2]; rfl
      · rw [recorded_append, i3]; rfl
      · obtain ⟨j1, j2⟩ := i4 (fun g hg => hr g (List.mem_cons_of_mem _ hg)) hn
        refine ⟨j1, ?_⟩
        simp only [j2, List.flatMap_cons]
    | recordFail data c rows hread hbegin hstatus hrows hcount hrecord =>
      exact absurd ((count_of_rows hrows f).symm.trans hf) hcount
    | bodyFail data c rows hread hbegin hstatus hrows hcount hrecord hbody hcut =>
      exact absurd ((count_of_rows hrows f).symm.trans hf) hcount
    | bodyFailCut data c part rows hread hbegin hstatus hrows hcount hrecord hbody hcut =>
      exact absurd ((count_of_rows hrows f).symm.trans hf) hcount
    | commitFail data c rows hread hbegin hstatus hrows hcount hrecord hbody hcommit hcut =>
      exact absurd ((count_of_rows hrows f).symm.trans hf) hcount
    | commitFailCut data c part rows hread hbegin hstatus hrows hcount hrecord hbody hcommit
        hcut =>
      exact absurd ((count_of_rows hrows f).symm.trans hf) hcount
    | apply data rows hread hbegin hstatus hrows hcount hrecord hbody hcommit =>
      exact absurd ((count_of_rows hrows f).symm.trans hf) hcount

/-- C3, as the code has it: from a ledger in which no name has more than one
record, after a first run that returned no error a second run with the same
source on the resulting database sends no insert and no body and leaves the
database state equal to the state after the first run, whatever fails in it;
when no call of the second run fails it returns no error, and after creating
the table (a no-op) every migration takes the skipped branch: read, begin,
status query, commit. -/
theorem Migrate_idempotent (s : Source) (faults faults2 : Faults) (cuts : Cuts) (db : DBState)
    (hledger : ∀ name, db.count name ≤ 1)
    (hok : (s.Migrate faults cuts db).1 = none) :
    executed (s.Migrate faults2 cuts (s.Migrate faults cuts db).2.1).2.2 = [] ∧
      recorded (s.Migrate faults2 cuts (s.Migrate faults cuts db).2.1).2.2 = [] ∧
      (s.Migrate faults2 cuts (s.Migrate faults cuts db).2.1).2.1 = (s.Migrate faults cuts db).2.1 ∧
      ((∀ n st, faults2 n st = none) →
        (s.Migrate faults2 cuts (s.Migrate faults cuts db).2.1).1 = none ∧
        ∃ files, s.FS.glob s.Glob = .ok files ∧
          (s.Migrate faults2 cuts (s.Migrate faults cuts db).2.1).2.2 =
            [.glob s.Glob, .begin, .createTable, .commit] ++
              (sortFiles files).flatMap fun f => [.readFile f, .begin, .status f, .commit]) := by
  cases hglob : s.FS.glob s.Glob with
  | error c =>
    rw [Migrate_of_glob_error s faults cuts db c hglob] at hok
    simp at hok
  | ok files =>
    rcases Migrate_cases s faults cuts db files hglob with ⟨c, evs, h, _⟩ | ⟨_, _, _, h⟩
    · rw [h] at hok
      simp at hok
    · rw [h] at hok
      simp only at hok
      have hsome := (migrateLoop_frame faults cuts s.FS (sortFiles files) 1 db.createTable).2.2.1 rfl
      have hone : ∀ f ∈ sortFiles files,
          (migrateLoop faults cuts s.FS 1 (sortFiles files) db.createTable).2.1.count f = 1 := by
        intro f hf
        rw [(migrateLoop_success faults cuts s.FS (sortFiles files) 1 db.createTable hok hledger f).1,
          if_pos hf]
      have hreads := migrateLoop_success_reads faults cuts s.FS (sortFiles files) 1 db.createTable hok
      have hdb1 : (s.Migrate faults cuts db).2.1 =
          (migrateLoop faults cuts s.FS 1 (sortFiles files) db.createTable).2.1 := by rw [h]
      rw [hdb1]
      generalize (migrateLoop faults cuts s.FS 1 (sortFiles files) db.createTable).2.1 = db1
        at hsome hone
      obtain ⟨rows, hrows⟩ := Option.isSome_iff_exists.mp hsome
      obtain ⟨k1, k2, k3, k4⟩ := migrateLoop_all_recorded faults2 cuts s.FS (sortFiles files) 1 db1 hone
      rcases Migrate_cases s faults2 cuts db1 files hglob with
        ⟨c, evs, h2, ⟨hc, he⟩ | ⟨hc, he⟩ | ⟨hc, he⟩⟩ | ⟨_, _, _, h2⟩
      · rw [h2, he]
        refine ⟨rfl, rfl, rfl, fun hn => ?_⟩
        rw [hn] at hc; simp at hc
      · rw [h2, he]
        refine ⟨rfl, rfl, rfl, fun hn => ?_⟩
        rw [hn] at hc; simp at hc
      · rw [h2, he]
        refine ⟨rfl, rfl, rfl, fun hn => ?_⟩
        rw [hn] at hc; simp at hc
      · rw [h2, createTable_of_some hrows]
        simp only
        refine ⟨?_, ?_, k1, fun hn => ?_⟩
        · simpa [executed] using k2
        · simpa [recorded] using k3
        · obtain ⟨j1, j2⟩ := k4 hreads hn
          exact ⟨j1, files, rfl, by rw [j2]; rfl⟩

/-- Witness for C3: two runs on a database without the tracking table. -/
theorem Migrate_idempotent_witness :
    executed (Source.Migrate ⟨FS.ofFiles [("001_a.sql", "a")], "*.sql"⟩ noFaults noCuts
        (Source.Migrate ⟨FS.ofFiles [("001_a.sql", "a")], "*.sql"⟩ noFaults noCuts
          ⟨none, []⟩).2.1).2.2 = [] ∧
      (Source.Migrate ⟨FS.ofFiles [("001_a.sql", "a")], "*.sql"⟩ noFaults noCuts
        (Source.Migrate ⟨FS.ofFiles [("001_a.sql", "a")], "*.sql"⟩ noFaults noCuts
          ⟨none, []⟩).2.1).1 = none :=
  have h := Migrate_idempotent ⟨FS.ofFiles [("001_a.sql", "a")], "*.sql"⟩ noFaults noFaults noCuts
    ⟨none, []⟩ (fun name => by simp [DBState.count, DBState.rows]) (by decide)
  ⟨h.1, (h.2.2.2 (fun _ _ => rfl)).1⟩

/-- Counterexample to C3 as stated.  On a tracking table that holds two
records of `001_a.sql`, the first run returns no error and so does the second,
which nevertheless sends the insert and the body of `001_a.sql` again and
changes the database.  And on an empty database, after a first run without
error, a second run whose first `Begin` fails returns an error. -/
theorem Migrate_second_run_executes :
    (Source.Migrate ⟨FS.ofFiles [("001_a.sql", "a")], "*.sql"⟩ noFaults noCuts
        ⟨some ["001_a.sql", "001_a.sql"], []⟩).1 = none ∧
      (Source.Migrate ⟨FS.ofFiles [("001_a.sql", "a")], "*.sql"⟩ noFaults noCuts
        (Source.Migrate ⟨FS.ofFiles [("001_a.sql", "a")], "*.sql"⟩ noFaults noCuts
          ⟨some ["001_a.sql", "001_a.sql"], []⟩).2.1).1 = none ∧
      executed (Source.Migrate ⟨FS.ofFiles [("001_a.sql", "a")], "*.sql"⟩ noFaults noCuts
        (Source.Migrate ⟨FS.ofFiles [("001_a.sql", "a")], "*.sql"⟩ noFaults noCuts
          ⟨some ["001_a.sql", "001_a.sql"], []⟩).2.1).2.2 = ["001_a.sql"] ∧
      recorded (Source.Migrate ⟨FS.ofFiles [("001_a.sql", "a")], "*.sql"⟩ noFaults noCuts
        (Source.Migrate ⟨FS.ofFiles [("001_a.sql", "a")], "*.sql"⟩ noFaults noCuts
          ⟨some ["001_a.sql", "001_a.sql"], []⟩).2.1).2.2 = ["001_a.sql"] ∧
      (Source.Migrate ⟨FS.ofFiles [("001_a.sql", "a")], "*.sql"⟩ noFaults noCuts
        (Source.Migrate ⟨FS.ofFiles [("001_a.sql", "a")], "*.sql"⟩ noFaults noCuts
          ⟨some ["001_a.sql", "001_a.sql"], []⟩).2.1).2.1 ≠
        (Source.Migrate ⟨FS.ofFiles [("001_a.sql", "a")], "*.sql"⟩ noFaults noCuts
          ⟨some ["001_a.sql", "001_a.sql"], []⟩).2.1 ∧
      (Source.Migrate ⟨FS.ofFiles [("001_a.sql", "a")], "*.sql"⟩ noFaults noCuts ⟨none, []⟩).1 = none ∧
      (Source.Migrate ⟨FS.ofFiles [("001_a.sql", "a")], "*.sql"⟩
        (faultAt 0 .begin "connection refused") noCuts
        (Source.Migrate ⟨FS.ofFiles [("001_a.sql", "a")], "*.sql"⟩ noFaults noCuts
          ⟨none, []⟩).2.1).1 = some (schemaErr (.cause "connection refused")) := by
  decide

/-! ## A count other than one -/

/-- C6, as the code has it: when the status query of a migration succeeds,
only a count of exactly one is treated as applied (the transaction ends without
any change); every other count, zero or more than one alike, is treated as not
applied: the insert is sent, no failure is raised on account of the count, and
when the insert and the body succeed the record and the effect of the body
are what the transaction has to commit (and what a body with a commit of its
own has committed already). -/
theorem migrationTx_count (flt : Stage → Option String) (cuts : Cuts) (filename data : String)
    (db : DBState) (rows : List String) (hrows : db.ledger = some rows)
    (hstatus : flt .status = none) :
    (rows.count filename = 1 →
      migrationTx flt cuts filename data db = (.ok db, none, [.status filename])) ∧
    (rows.count filename ≠ 1 →
      Event.record filename ∈ (migrationTx flt cuts filename data db).2.2 ∧
      (∀ e, (migrationTx flt cuts filename data db).1 = .error e →
        (∃ c, flt .record = some c ∧ e = recordErr filename c) ∨
        (∃ c, flt .body = some c ∧ e = execErr filename c)) ∧
      (flt .record = none → flt .body = none →
        migrationTx flt cuts filename data db =
          (.ok { ledger := some (rows ++ [filename]), applied := db.applied ++ [data] },
            (cuts data).map fun _ =>
              { ledger := some (rows ++ [filename]), applied := db.applied ++ [data] },
            [.status filename, .record filename, .body filename data]))) := by
  unfold migrationTx queryAlreadyDone execInsert execBody
  rw [hstatus, hrows]
  refine ⟨fun h => by simp [h], fun h => ?_⟩
  simp only [h, if_false]
  cases hrecord : flt .record with
  | some c => simp
  | none =>
    cases hbody : flt .body with
    | some c => simp
    | none =>
      exact ⟨by simp, by simp, fun _ _ => rfl⟩

/-- Witness for C6: a tracking table with two records of the name, and one
with a single record. -/
theorem migrationTx_count_witness :
    migrationTx (noFaults 1) noCuts "001_a.sql" "a" ⟨some ["001_a.sql", "001_a.sql"], []⟩ =
        (.ok ⟨some ["001_a.sql", "001_a.sql", "001_a.sql"], ["a"]⟩, none,
          [.status "001_a.sql", .record "001_a.sql", .body "001_a.sql" "a"]) ∧
      migrationTx (noFaults 1) noCuts "001_a.sql" "a" ⟨some ["001_a.sql"], []⟩ =
        (.ok ⟨some ["001_a.sql"], []⟩, none, [.status "001_a.sql"]) :=
  ⟨(((migrationTx_count (noFaults 1) noCuts "001_a.sql" "a"
      ⟨some ["001_a.sql", "001_a.sql"], []⟩
      ["001_a.sql", "001_a.sql"] rfl rfl).2 (by decide)).2.2 rfl rfl),
    (migrationTx_count (noFaults 1) noCuts "001_a.sql" "a" ⟨some ["001_a.sql"], []⟩
      ["001_a.sql"] rfl rfl).1 (by decide)⟩

/-- Counterexample to C6 as stated: the status query of `002_b.sql` returns
two, and Migrate returns no error, having sent the insert and the body of
`002_b.sql`, after which the name has three records. -/
theorem Migrate_count_two_not_surfaced :
    (DBState.mk (some ["002_b.sql", "002_b.sql"]) []).count "002_b.sql" = 2 ∧
      Source.Migrate ⟨FS.ofFiles [("002_b.sql", "alter table t add c int")], "*.sql"⟩ noFaults noCuts
        ⟨some ["002_b.sql", "002_b.sql"], []⟩ =
      (none, ⟨some ["002_b.sql", "002_b.sql", "002_b.sql"], ["alter table t add c int"]⟩,
        [.glob "*.sql", .begin, .createTable, .commit, .readFile "002_b.sql", .begin,
          .status "002_b.sql", .record "002_b.sql",
          .body "002_b.sql" "alter table t add c int", .commit]) := by
  decide

/-! ## What a failed run reports -/

/-- An iteration that fails reports the failed call as follows. -/
theorem step_failure {faults : Faults} {cuts : Cuts} {fs : FS} {n : Nat} {f : String} {db : DBState}
    {out : Option Err × DBState × List Event} (hs : Step faults cuts fs n f db out) {e : Err}
    (h : out.1 = some e) (hsome : db.ledger.isSome) :
    ∃ c, e.root = .cause c ∧
      ((fs.readFile f = .error c ∧ e = readErr f c ∧ out.2.2 = [.readFile f]) ∨
       (faults n .begin = some c ∧ e = commitErr f (.cause c) ∧
          out.2.2 = [.readFile f, .begin]) ∨
       (faults n .status = some c ∧ e = commitErr f (statusErr f c) ∧
          out.2.2 = [.readFile f, .begin, .status f, .rollback]) ∨
       (faults n .record = some c ∧ e = commitErr f (recordErr f c) ∧
          out.2.2 = [.readFile f, .begin, .status f, .record f, .rollback]) ∨
       (∃ data, fs.readFile f = .ok data ∧ faults n .body = some c ∧
          e = commitErr f (execErr f c) ∧
          out.2.2 = [.readFile f, .begin, .status f, .record f, .body f data, .rollback]) ∨
       (faults n .commit = some c ∧ e = commitErr f (.cause c) ∧
          ∃ pre, out.2.2 = pre ++ [.commit])) := by
  cases hs with
  | readFail c hread =>
    simp only [Option.some.injEq] at h
    subst h
    exact ⟨c, rfl, Or.inl ⟨hread, rfl, rfl⟩⟩
  | beginFail data c hread hbegin =>
    simp only [Option.some.injEq] at h
    subst h
    exact ⟨c, rfl, Or.inr (Or.inl ⟨hbegin, rfl, rfl⟩)⟩
  | statusFail data c hread hbegin hstatus =>
    simp only [Option.some.injEq] at h
    subst h
    refine ⟨c, rfl, Or.inr (Or.inr (Or.inl ⟨?_, rfl, rfl⟩))⟩
    unfold queryAlreadyDone at hstatus
    obtain ⟨rows, hrows⟩ := Option.isSome_iff_exists.mp hsome
    cases hst : faults n .status with
    | some c2 =>
      rw [hst] at hstatus
      simp only [Except.error.injEq] at hstatus
      rw [hstatus]
    | none =>
      rw [hst, hrows] at hstatus
      simp at hstatus
  | skipCommitFail data c rows hread hbegin hstatus hrows hcount hcommit =>
    simp only [Option.some.injEq] at h
    subst h
    exact ⟨c, rfl, Or.inr (Or.inr (Or.inr (Or.inr (Or.inr
      ⟨hcommit, rfl, [.readFile f, .begin, .status f], rfl⟩))))⟩
  | skip data rows hread hbegin hstatus hrows hcount hcommit => simp at h
  | recordFail data c rows hread hbegin hstatus hrows hcount hrecord =>
    simp only [Option.some.injEq] at h
    subst h
    exact ⟨c, rfl, Or.inr (Or.inr (Or.inr (Or.inl ⟨hrecord, rfl, rfl⟩)))⟩
  | bodyFail data c rows hread hbegin hstatus hrows hcount hrecord hbody hcut =>
    simp only [Option.some.injEq] at h
    subst h
    exact ⟨c, rfl,
      Or.inr (Or.inr (Or.inr (Or.inr (Or.inl ⟨data, hread, hbody, rfl, rfl⟩))))⟩
  | bodyFailCut data c part rows hread hbegin hstatus hrows hcount hrecord hbody hcut =>
    simp only [Option.some.injEq] at h
    subst h
    exact ⟨c, rfl,
      Or.inr (Or.inr (Or.inr (Or.inr (Or.inl ⟨data, hread, hbody, rfl, rfl⟩))))⟩
  | commitFail data c rows hread hbegin hstatus hrows hcount hrecord hbody hcommit hcut =>
    simp only [Option.some.injEq] at h
    subst h
    exact ⟨c, rfl, Or.inr (Or.inr (Or.inr (Or.inr (Or.inr
      ⟨hcommit, rfl, [.readFile f, .begin, .status f, .record f, .body f data], rfl⟩))))⟩
  | commitFailCut data c part rows hread hbegin hstatus hrows hcount hrecord hbody hcommit
      hcut =>
    simp only [Option.some.injEq] at h
    subst h
    exact ⟨c, rfl, Or.inr (Or.inr (Or.inr (Or.inr (Or.inr
      ⟨hcommit, rfl, [.readFile f, .begin, .status f, .record f, .body f data], rfl⟩))))⟩
  | apply data rows hread hbegin hstatus hrows hcount hrecord hbody hcommit => simp at h

/-- A loop that fails reports the call that failed, which is the last call
it made but for the rollback. -/
theorem migrateLoop_failure (faults : Faults) (cuts : Cuts) (fs : FS) :
    ∀ (l : List String) (n : Nat) (db : DBState) (e : Err), db.ledger.isSome →
      (migrateLoop faults cuts fs n l db).1 = some e →
      ∃ f ∈ l, ∃ i c pre, e.root = .cause c ∧
        ((fs.readFile f = .error c ∧ e = readErr f c ∧
            (migrateLoop faults cuts fs n l db).2.2 = pre ++ [.readFile f]) ∨
         (faults i .begin = some c ∧ e = commitErr f (.cause c) ∧
            (migrateLoop faults cuts fs n l db).2.2 = pre ++ [.readFile f, .begin]) ∨
         (faults i .status = some c ∧ e = commitErr f (statusErr f c) ∧
            (migrateLoop faults cuts fs n l db).2.2 =
              pre ++ [.readFile f, .begin, .status f, .rollback]) ∨
         (faults i .record = some c ∧ e = commitErr f (recordErr f c) ∧
            (migrateLoop faults cuts fs n l db).2.2 =
              pre ++ [.readFile f, .begin, .status f, .record f, .rollback]) ∨
         (∃ data, fs.readFile f = .ok data ∧ faults i .body = some c ∧
            e = commitErr f (execErr f c) ∧
            (migrateLoop faults cuts fs n l db).2.2 =
              pre ++ [.readFile f, .begin, .status f, .record f, .body f data, .rollback]) ∨
         (faults i .commit = some c ∧ e = commitErr f (.cause c) ∧
            (migrateLoop faults cuts fs n l db).2.2 = pre ++ [.commit])) := by
  intro l
  induction l with
  | nil =>
    intro n db e _ h
    simp [migrateLoop] at h
  | cons f rest ih =>
    intro n db e hsome h
    have hs := migrateOne_step faults cuts fs n f db
    rcases hout : migrateOne faults cuts fs n f db with ⟨_ | e1, db1, evs⟩
    · rw [migrateLoop_cons_ok hout] at h ⊢
      simp only at h ⊢
      have hsome1 : db1.ledger.isSome := by
        have := (step_frame hs).2.2.1 hsome
        rw [hout] at this
        exact this
      obtain ⟨g, hg, i, c, pre, hroot, hcase⟩ := ih (n + 1) db1 e hsome1 h
      refine ⟨g, List.mem_cons_of_mem _ hg, i, c, evs ++ pre, hroot, ?_⟩
      rcases hcase with ⟨a, b, t⟩ | ⟨a, b, t⟩ | ⟨a, b, t⟩ | ⟨a, b, t⟩ | ⟨data, r, a, b, t⟩ |
        ⟨a, b, t⟩
      · exact Or.inl ⟨a, b, by rw [t, List.append_assoc]⟩
      · exact Or.inr (Or.inl ⟨a, b, by rw [t, List.append_assoc]⟩)
      · exact Or.inr (Or.inr (Or.inl ⟨a, b, by rw [t, List.append_assoc]⟩))
      · exact Or.inr (Or.inr (Or.inr (Or.inl ⟨a, b, by rw [t, List.append_assoc]⟩)))
      · exact Or.inr (Or.inr (Or.inr (Or.inr (Or.inl
          ⟨data, r, a, b, by rw [t, List.append_assoc]⟩))))
      · exact Or.inr (Or.inr (Or.inr (Or.inr (Or.inr ⟨a, b, by rw [t, List.append_assoc]⟩))))
    · rw [migrateLoop_cons_some hout] at h ⊢
      simp only [Option.some.injEq] at h
      subst h
      rw [hout] at hs
      obtain ⟨c, hroot, hcase⟩ := step_failure hs rfl hsome
      refine ⟨f, List.mem_cons_self _ _, n, c, ?_⟩
      rcases hcase with ⟨a, b, t⟩ | ⟨a, b, t⟩ | ⟨a, b, t⟩ | ⟨a, b, t⟩ | ⟨data, r, a, b, t⟩ |
        ⟨a, b, pre, t⟩
      · exact ⟨[], hroot, Or.inl ⟨a, b, t⟩⟩
      · exact ⟨[], hroot, Or.inr (Or.inl ⟨a, b, t⟩)⟩
      · exact ⟨[], hroot, Or.inr (Or.inr (Or.inl ⟨a, b, t⟩))⟩
      · exact ⟨[], hroot, Or.inr (Or.inr (Or.inr (Or.inl ⟨a, b, t⟩)))⟩
      · exact ⟨[], hroot, Or.inr (Or.inr (Or.inr (Or.inr (Or.inl ⟨data, r, a, b, t⟩))))⟩
      · exact ⟨pre, hroot, Or.inr (Or.inr (Or.inr (Or.inr (Or.inr ⟨a, b, t⟩))))⟩

/-- C9, as the code has it: the error a failed run returns is a chain of
`fmt.Errorf` layers around the cause reported by the call that failed, which
unwrapping reaches.  A glob failure is reported by the globbing layer with the
pattern; a failure of the transaction that creates the table (begin, statement
or commit) by the table-creation layer, which carries no identifier; a failed
read by the reading layer with the file name.  Every failure inside the
transaction of a migration is reported with the commit layer outermost,
carrying the file name: directly around the cause when `Begin` or the commit
failed, and around the layer of the stage (status, record or execution, again
with the file name) when that stage failed.  So the kind the caller sees
first is discovery, schema, read or commit. -/
theorem Migrate_error_report (s : Source) (faults : Faults) (cuts : Cuts) (db : DBState) (e : Err)
    (herr : (s.Migrate faults cuts db).1 = some e) :
    (e.kind = some .discovery ∨ e.kind = some .schema ∨ e.kind = some .read ∨
      e.kind = some .commit) ∧
    ∃ c, e.root = .cause c ∧
      ((s.FS.glob s.Glob = .error c ∧ e = globErr s.Glob c ∧
          (s.Migrate faults cuts db).2.2 = [.glob s.Glob]) ∨
       (e = schemaErr (.cause c) ∧
          (faults 0 .begin = some c ∨ faults 0 .schema = some c ∨ faults 0 .commit = some c)) ∨
       (∃ files f i pre, s.FS.glob s.Glob = .ok files ∧ f ∈ files ∧
         ((s.FS.readFile f = .error c ∧ e = readErr f c ∧
            (s.Migrate faults cuts db).2.2 = pre ++ [.readFile f]) ∨
          (faults i .begin = some c ∧ e = commitErr f (.cause c) ∧
            (s.Migrate faults cuts db).2.2 = pre ++ [.readFile f, .begin]) ∨
          (faults i .status = some c ∧ e = commitErr f (statusErr f c) ∧
            (s.Migrate faults cuts db).2.2 = pre ++ [.readFile f, .begin, .status f, .rollback]) ∨
          (faults i .record = some c ∧ e = commitErr f (recordErr f c) ∧
            (s.Migrate faults cuts db).2.2 =
              pre ++ [.readFile f, .begin, .status f, .record f, .rollback]) ∨
          (∃ data, s.FS.readFile f = .ok data ∧ faults i .body = some c ∧
            e = commitErr f (execErr f c) ∧
            (s.Migrate faults cuts db).2.2 =
              pre ++ [.readFile f, .begin, .status f, .record f, .body f data, .rollback]) ∨
          (faults i .commit = some c ∧ e = commitErr f (.cause c) ∧
            (s.Migrate faults cuts db).2.2 = pre ++ [.commit])))) := by
  cases hglob : s.FS.glob s.Glob with
  | error c =>
    rw [Migrate_of_glob_error s faults cuts db c hglob] at herr ⊢
    simp only [Option.some.injEq] at herr
    subst herr
    exact ⟨Or.inl rfl, c, rfl, Or.inl ⟨rfl, rfl, rfl⟩⟩
  | ok files =>
    rcases Migrate_cases s faults cuts db files hglob with
      ⟨c, evs, h, hc⟩ | ⟨_, _, _, h⟩
    · rw [h] at herr
      simp only [Option.some.injEq] at herr
      subst herr
      refine ⟨Or.inr (Or.inl rfl), c, rfl, Or.inr (Or.inl ⟨rfl, ?_⟩)⟩
      rcases hc with ⟨hc, _⟩ | ⟨hc, _⟩ | ⟨hc, _⟩
      · exact Or.inl hc
      · exact Or.inr (Or.inl hc)
      · exact Or.inr (Or.inr hc)
    · rw [h] at herr ⊢
      simp only at herr ⊢
      obtain ⟨f, hf, i, c, pre, hroot, hcase⟩ :=
        migrateLoop_failure faults cuts s.FS (sortFiles files) 1 db.createTable e rfl herr
      have hk : e.kind = some .read ∨ e.kind = some .commit := by
        rcases hcase with ⟨_, b, _⟩ | ⟨_, b, _⟩ | ⟨_, b, _⟩ | ⟨_, b, _⟩ | ⟨_, _, _, b, _⟩ |
          ⟨_, b, _⟩
        · exact Or.inl (by rw [b]; rfl)
        all_goals exact Or.inr (by rw [b]; rfl)
      refine ⟨Or.inr (Or.inr hk), c, hroot, Or.inr (Or.inr
        ⟨files, f, i, .glob s.Glob :: .begin :: .createTable :: .commit :: pre, rfl,
          mem_sortFiles.mp hf, ?_⟩)⟩
      rcases hcase with ⟨a, b, t⟩ | ⟨a, b, t⟩ | ⟨a, b, t⟩ | ⟨a, b, t⟩ | ⟨data, r, a, b, t⟩ |
        ⟨a, b, t⟩
      · exact Or.inl ⟨a, b, by rw [t]; rfl⟩
      · exact Or.inr (Or.inl ⟨a, b, by rw [t]; rfl⟩)
      · exact Or.inr (Or.inr (Or.inl ⟨a, b, by rw [t]; rfl⟩))
      · exact Or.inr (Or.inr (Or.inr (Or.inl ⟨a, b, by rw [t]; rfl⟩)))
      · exact Or.inr (Or.inr (Or.inr (Or.inr (Or.inl ⟨data, r, a, b, by rw [t]; rfl⟩))))
      · exact Or.inr (Or.inr (Or.inr (Or.inr (Or.inr ⟨a, b, by rw [t]; rfl⟩))))

/-- Witness for C9: the body of `001_a.sql` fails. -/
theorem Migrate_error_report_witness :
    (commitErr "001_a.sql" (execErr "001_a.sql" "syntax error")).kind = some .discovery ∨
      (commitErr "001_a.sql" (execErr "001_a.sql" "syntax error")).kind = some .schema ∨
      (commitErr "001_a.sql" (execErr "001_a.sql" "syntax error")).kind = some .read ∨
      (commitErr "001_a.sql" (execErr "001_a.sql" "syntax error")).kind = some .commit :=
  (Migrate_error_report ⟨FS.ofFiles [("001_a.sql", "selec 1")], "*.sql"⟩
    (faultAt 1 .body "syntax error") noCuts ⟨none, []⟩
    (commitErr "001_a.sql" (execErr "001_a.sql" "syntax error")) (by decide)).1

/-- Counterexample to C9 as stated: the body of `001_a.sql` fails and the
transaction is rolled back without any attempt to commit it, yet the error
Migrate returns is of the commit kind, not of the execution kind; the
execution error is what it wraps. -/
theorem Migrate_body_failure_reported_as_commit :
    Source.Migrate ⟨FS.ofFiles [("001_a.sql", "selec 1")], "*.sql"⟩
        (faultAt 1 .body "syntax error") noCuts ⟨none, []⟩ =
      (some (commitErr "001_a.sql" (execErr "001_a.sql" "syntax error")), ⟨some [], []⟩,
        [.glob "*.sql", .begin, .createTable, .commit, .readFile "001_a.sql", .begin,
          .status "001_a.sql", .record "001_a.sql", .body "001_a.sql" "selec 1", .rollback]) ∧
      (commitErr "001_a.sql" (execErr "001_a.sql" "syntax error")).kind = some .commit ∧
      (commitErr "001_a.sql" (execErr "001_a.sql" "syntax error")).kind ≠ some .execution ∧
      ((commitErr "001_a.sql" (execErr "001_a.sql" "syntax error")).unwrap.bind Err.kind) =
        some .execution := by
  decide

/-! ## The trace of the loop -/

theorem bodies_append (t1 t2 : List Event) : bodies (t1 ++ t2) = bodies t1 ++ bodies t2 := by
  simp [bodies, List.filterMap_append]

/-- The calls of one iteration are about its file, which is read once, first. -/
theorem step_trace {faults : Faults} {cuts : Cuts} {fs : FS} {n : Nat} {f : String} {db : DBState}
    {out : Option Err × DBState × List Event} (hs : Step faults cuts fs n f db out) :
    reads out.2.2 = [f] ∧ (∃ tl, out.2.2 = .readFile f :: tl) ∧
      (∀ ev ∈ out.2.2, ∀ g, ev.name? = some g → g = f) ∧
      (executed out.2.2).Sublist [f] ∧ (recorded out.2.2).Sublist [f] := by
  cases hs <;> refine ⟨rfl, ⟨_, rfl⟩, ?_, ?_, ?_⟩ <;>
    simp [Event.name?, executed, recorded]

/-- A loop that fails is a loop that succeeds over the names before the one
that fails, followed by the failed iteration. -/
theorem migrateLoop_split (faults : Faults) (cuts : Cuts) (fs : FS) :
    ∀ (l : List String) (n : Nat) (db : DBState) (e : Err),
      (migrateLoop faults cuts fs n l db).1 = some e →
      ∃ before m after db2 evs, l = before ++ m :: after ∧
        (migrateLoop faults cuts fs n before db).1 = none ∧
        migrateOne faults cuts fs (n + before.length) m
            (migrateLoop faults cuts fs n before db).2.1 = (some e, db2, evs) ∧
        (migrateLoop faults cuts fs n l db).2.1 = db2 ∧
        (migrateLoop faults cuts fs n l db).2.2 =
          (migrateLoop faults cuts fs n before db).2.2 ++ evs := by
  intro l
  induction l with
  | nil =>
    intro n db e h
    simp [migrateLoop] at h
  | cons f rest ih =>
    intro n db e h
    rcases hout : migrateOne faults cuts fs n f db with ⟨_ | e1, db1, evs⟩
    · rw [migrateLoop_cons_ok hout] at h ⊢
      simp only at h ⊢
      obtain ⟨before, m, after, db2, evs2, hl, h1, h2, h3, h4⟩ := ih (n + 1) db1 e h
      refine ⟨f :: before, m, after, db2, evs2, by rw [hl]; rfl, ?_, ?_, ?_, ?_⟩
      · rw [migrateLoop_cons_ok hout]
        exact h1
      · rw [migrateLoop_cons_ok hout]
        have harith : n + (f :: before).length = n + 1 + before.length := by
          simp only [List.length_cons]; omega
        rw [harith]
        exact h2
      · exact h3
      · rw [migrateLoop_cons_ok hout]
        simp only
        rw [h4, List.append_assoc]
    · rw [migrateLoop_cons_some hout] at h ⊢
      simp only [Option.some.injEq] at h
      subst h
      exact ⟨[], f, rest, db1, evs, rfl, rfl, by simpa [migrateLoop] using hout, rfl, by
        simp [migrateLoop]⟩

/-- The trace of a loop that succeeds: every file is read, in the order of
the list, and the records and bodies it sent are what the database gained. -/
theorem migrateLoop_success_trace (faults : Faults) (cuts : Cuts) (fs : FS) :
    ∀ (l : List String) (n : Nat) (db : DBState),
      (migrateLoop faults cuts fs n l db).1 = none →
      reads (migrateLoop faults cuts fs n l db).2.2 = l ∧
      (migrateLoop faults cuts fs n l db).2.1.applied =
        db.applied ++ bodies (migrateLoop faults cuts fs n l db).2.2 ∧
      (migrateLoop faults cuts fs n l db).2.1.rows =
        db.rows ++ recorded (migrateLoop faults cuts fs n l db).2.2 ∧
      executed (migrateLoop faults cuts fs n l db).2.2 =
        recorded (migrateLoop faults cuts fs n l db).2.2 := by
  intro l
  induction l with
  | nil =>
    intro n db _
    simp [migrateLoop, reads, bodies, recorded, executed]
  | cons f rest ih =>
    intro n db h
    obtain ⟨db1, evs, hone, hrest, hdb, htr⟩ := migrateLoop_cons_none h
    rw [hdb, htr, reads_append, bodies_append, recorded_append, executed_append]
    obtain ⟨i1, i2, i3, i4⟩ := ih (n + 1) db1 hrest
    have hs := migrateOne_step faults cuts fs n f db
    rw [hone] at hs
    obtain ⟨data, rows, -, hrows, hcase⟩ := step_success hs rfl
    rw [i1, i2, i3, i4]
    rcases hcase with ⟨-, hout⟩ | ⟨-, hout⟩
    · simp only [Prod.mk.injEq, true_and] at hout
      obtain ⟨rfl, rfl⟩ := hout
      simp [reads, bodies, recorded, executed]
    · simp only [Prod.mk.injEq, true_and] at hout
      obtain ⟨rfl, rfl⟩ := hout
      simp [reads, bodies, recorded, executed, DBState.rows, hrows]

/-- The trace of any loop: the files are read in the order of the list, every
call is about a file that has been read, and inserts and bodies are sent in
the order of the reads. -/
theorem migrateLoop_trace (faults : Faults) (cuts : Cuts) (fs : FS) :
    ∀ (l : List String) (n : Nat) (db : DBState),
      reads (migrateLoop faults cuts fs n l db).2.2 <+: l ∧
      (∀ ev ∈ (migrateLoop faults cuts fs n l db).2.2, ∀ g, ev.name? = some g →
        g ∈ reads (migrateLoop faults cuts fs n l db).2.2) ∧
      (executed (migrateLoop faults cuts fs n l db).2.2).Sublist
        (reads (migrateLoop faults cuts fs n l db).2.2) ∧
      (recorded (migrateLoop faults cuts fs n l db).2.2).Sublist
        (reads (migrateLoop faults cuts fs n l db).2.2) := by
  intro l
  induction l with
  | nil =>
    intro n db
    simp [migrateLoop, reads, executed, recorded]
  | cons f rest ih =>
    intro n db
    have hs := migrateOne_step faults cuts fs n f db
    rcases hout : migrateOne faults cuts fs n f db with ⟨_ | e1, db1, evs⟩
    · rw [migrateLoop_cons_ok hout]
      rw [hout] at hs
      obtain ⟨s1, -, s2, s3, s4⟩ := step_trace hs
      simp only at s1 s2 s3 s4 ⊢
      obtain ⟨i1, i2, i3, i4⟩ := ih (n + 1) db1
      rw [reads_append, executed_append, recorded_append, s1]
      refine ⟨?_, ?_, ?_, ?_⟩
      · exact (List.prefix_cons_inj f).mpr i1
      · intro ev hev g hg
        rcases List.mem_append.mp hev with hev | hev
        · rw [s2 ev hev g hg]
          exact List.mem_cons_self _ _
        · exact List.mem_cons_of_mem _ (i2 ev hev g hg)
      · exact s3.append i3
      · exact s4.append i4
    · rw [migrateLoop_cons_some hout]
      rw [hout] at hs
      obtain ⟨s1, -, s2, s3, s4⟩ := step_trace hs
      simp only at s1 s2 s3 s4 ⊢
      rw [s1]
      refine ⟨?_, ?_, s3, s4⟩
      · exact ⟨rest, rfl⟩
      · intro ev hev g hg
        rw [s2 ev hev g hg]
        exact List.mem_singleton_self _

/-! ## Reading comes first -/

/-- The status query of an iteration comes right after the read of the file
and the begin of the transaction. -/
theorem step_status_pos {faults : Faults} {cuts : Cuts} {fs : FS} {n : Nat} {f : String} {db : DBState}
    {out : Option Err × DBState × List Event} (hs : Step faults cuts fs n f db out)
    (pre post : List Event) (g : String) (h : out.2.2 = pre ++ .status g :: post) :
    pre = [.readFile f, .begin] ∧ g = f := by
  cases hs <;> simp [List.cons_eq_append_iff] at h <;> aesop

/-- In the trace of the loop every status query comes right after the read
of its file and the begin of its transaction. -/
theorem migrateLoop_status_pos (faults : Faults) (cuts : Cuts) (fs : FS) :
    ∀ (l : List String) (n : Nat) (db : DBState) (pre post : List Event) (g : String),
      (migrateLoop faults cuts fs n l db).2.2 = pre ++ .status g :: post →
      ∃ pre2, pre = pre2 ++ [.readFile g, .begin] := by
  intro l
  induction l with
  | nil =>
    intro n db pre post g h
    simp [migrateLoop] at h
  | cons f rest ih =>
    intro n db pre post g h
    have hs := migrateOne_step faults cuts fs n f db
    rcases hout : migrateOne faults cuts fs n f db with ⟨_ | e1, db1, evs⟩
    · rw [migrateLoop_cons_ok hout] at h
      rw [hout] at hs
      simp only at h
      rcases List.append_eq_append_iff.mp h with ⟨a, ha, hb⟩ | ⟨c, hc, hd⟩
      · obtain ⟨p, hp⟩ := ih (n + 1) db1 a post g hb
        exact ⟨evs ++ p, by rw [ha, hp, List.append_assoc]⟩
      · cases c with
        | nil =>
          simp only [List.nil_append] at hd
          obtain ⟨p, hp⟩ := ih (n + 1) db1 [] post g (by rw [← hd]; rfl)
          simp at hp
        | cons x c2 =>
          simp only [List.cons_append, List.cons.injEq] at hd
          obtain ⟨rfl, -⟩ := hd
          obtain ⟨h1, h2⟩ := step_status_pos hs pre c2 g hc
          exact ⟨[], by rw [h1, h2]; rfl⟩
    · rw [migrateLoop_cons_some hout] at h
      rw [hout] at hs
      obtain ⟨h1, h2⟩ := step_status_pos hs pre post g h
      exact ⟨[], by rw [h1, h2]; rfl⟩

/-- A loop that reaches a file that cannot be read has succeeded over the
names before it and stops at the read. -/
theorem migrateLoop_read_failure (faults : Faults) (cuts : Cuts) (fs : FS) (m c : String)
    (hread : fs.readFile m = .error c) :
    ∀ (l : List String) (n : Nat) (db : DBState),
      Event.readFile m ∈ (migrateLoop faults cuts fs n l db).2.2 →
      ∃ before after, l = before ++ m :: after ∧ m ∉ before ∧
        (migrateLoop faults cuts fs n before db).1 = none ∧
        migrateLoop faults cuts fs n l db =
          (some (readErr m c), (migrateLoop faults cuts fs n before db).2.1,
            (migrateLoop faults cuts fs n before db).2.2 ++ [.readFile m]) := by
  intro l
  induction l with
  | nil =>
    intro n db h
    simp [migrateLoop] at h
  | cons f rest ih =>
    intro n db h
    have hs := migrateOne_step faults cuts fs n f db
    by_cases hfm : f = m
    · subst hfm
      refine ⟨[], rest, rfl, List.not_mem_nil _, rfl, ?_⟩
      have hone : migrateOne faults cuts fs n f db = (some (readErr f c), db, [.readFile f]) := by
        unfold migrateOne
        rw [hread]
      rw [migrateLoop_cons_some hone]
      simp [migrateLoop]
    · have hnot : ∀ evs : List Event, (∀ ev ∈ evs, ∀ g, Event.name? ev = some g → g = f) →
          Event.readFile m ∉ evs := fun evs hev hmem => hfm (hev _ hmem m rfl).symm
      rcases hout : migrateOne faults cuts fs n f db with ⟨_ | e1, db1, evs⟩
      · rw [hout] at hs
        rw [migrateLoop_cons_ok hout] at h ⊢
        simp only at h
        rcases List.mem_append.mp h with h | h
        · exact absurd h (hnot evs (step_trace hs).2.2.1)
        · obtain ⟨before, after, hl, hmem, hok, heq⟩ := ih (n + 1) db1 h
          refine ⟨f :: before, after, by rw [hl]; rfl, ?_, ?_, ?_⟩
          · simp only [List.mem_cons, not_or]
            exact ⟨fun h => hfm h.symm, hmem⟩
          · rw [migrateLoop_cons_ok hout]
            exact hok
          · rw [migrateLoop_cons_ok hout, heq]
            simp
      · rw [hout] at hs
        rw [migrateLoop_cons_some hout] at h
        exact absurd h (hnot evs (step_trace hs).2.2.1)

/-- After a loop that succeeds every name of the list has a record. -/
theorem migrateLoop_success_recorded (faults : Faults) (cuts : Cuts) (fs : FS) :
    ∀ (l : List String) (n : Nat) (db : DBState),
      (migrateLoop faults cuts fs n l db).1 = none →
      ∀ g ∈ l, 1 ≤ (migrateLoop faults cuts fs n l db).2.1.count g := by
  intro l
  induction l with
  | nil => intro n db _ g hg; simp at hg
  | cons f rest ih =>
    intro n db h g hg
    obtain ⟨db1, evs, hone, hrest, hdb, -⟩ := migrateLoop_cons_none h
    rw [hdb]
    rcases List.mem_cons.mp hg with rfl | hg
    · have hs := migrateOne_step faults cuts fs n g db
      rw [hone] at hs
      obtain ⟨data, rows, -, hrows, hcase⟩ := step_success hs rfl
      have h1 : 1 ≤ db1.count g := by
        rcases hcase with ⟨hcount, hout⟩ | ⟨-, hout⟩
        · simp only [Prod.mk.injEq, true_and] at hout
          obtain ⟨rfl, rfl⟩ := hout
          rw [count_of_rows hrows, hcount]
        · simp only [Prod.mk.injEq, true_and] at hout
          obtain ⟨rfl, rfl⟩ := hout
          simp [DBState.count, DBState.rows]
      exact h1.trans
        ((migrateLoop_frame faults cuts fs rest (n + 1) db1).1.sublist.count_le g)
    · exact ih (n + 1) db1 hrest g hg

theorem sorted_append_le {before after : List String} {m : String}
    (h : (before ++ m :: after).Sorted (· ≤ ·)) : ∀ g ∈ before, g ≤ m := by
  intro g hg
  exact (List.pairwise_append.mp h).2.2 g hg m (List.mem_cons_self _ _)

/-- C10: in every run each status query comes right after the read of its
file and the begin of its transaction, so the body is read before the ledger
is consulted; and when Migrate gets to a file whose read fails, whatever the
ledger says about it, Migrate returns the read error for that file, the read
is the last call it made (no transaction is opened for the file and no later
migration is attempted: all earlier calls are about names of the run that sort
before it), and the migrations processed before it stay committed: each has a
record, and the inserts and bodies sent before are in the database. -/
theorem Migrate_read_before_ledger (s : Source) (faults : Faults) (cuts : Cuts) (db : DBState)
    (files : List String) (hglob : s.FS.glob s.Glob = .ok files) :
    (∀ pre post g, (s.Migrate faults cuts db).2.2 = pre ++ .status g :: post →
      ∃ pre2, pre = pre2 ++ [.readFile g, .begin]) ∧
    (∀ m c, s.FS.readFile m = .error c → Event.readFile m ∈ (s.Migrate faults cuts db).2.2 →
      (s.Migrate faults cuts db).1 = some (readErr m c) ∧
      ∃ pre, (s.Migrate faults cuts db).2.2 = pre ++ [.readFile m] ∧
        (∀ ev ∈ pre, ∀ g, ev.name? = some g → g ∈ files ∧ g < m) ∧
        (∀ g ∈ reads pre, 1 ≤ (s.Migrate faults cuts db).2.1.count g) ∧
        (s.Migrate faults cuts db).2.1.applied = db.applied ++ bodies pre ∧
        (s.Migrate faults cuts db).2.1.rows = db.rows ++ recorded pre) := by
  rcases Migrate_cases s faults cuts db files hglob with
    ⟨c, evs, h, hc⟩ | ⟨_, _, _, h⟩
  · rw [h]
    constructor
    · intro pre post g hpre
      exfalso
      rcases hc with ⟨_, rfl⟩ | ⟨_, rfl⟩ | ⟨_, rfl⟩ <;>
        simp [List.cons_eq_append_iff] at hpre
    · intro m c2 _ hreach
      exfalso
      rcases hc with ⟨_, rfl⟩ | ⟨_, rfl⟩ | ⟨_, rfl⟩ <;> simp at hreach
  · rw [h]
    simp only
    constructor
    · intro pre post g hpre
      have hlen : ∃ p, pre = .glob s.Glob :: .begin :: .createTable :: .commit :: p ∧
          (migrateLoop faults cuts s.FS 1 (sortFiles files) db.createTable).2.2 =
            p ++ .status g :: post := by
        rcases pre with _ | ⟨_, _ | ⟨_, _ | ⟨_, _ | ⟨_, p⟩⟩⟩⟩
        · simp at hpre
        · simp at hpre
        · simp at hpre
        · simp at hpre
        · simp only [List.cons_append, List.cons.injEq] at hpre
          obtain ⟨rfl, rfl, rfl, rfl, hp⟩ := hpre
          exact ⟨p, rfl, hp⟩
      obtain ⟨p, rfl, hp⟩ := hlen
      obtain ⟨q, rfl⟩ := migrateLoop_status_pos faults cuts s.FS _ _ _ p post g hp
      exact ⟨.glob s.Glob :: .begin :: .createTable :: .commit :: q, rfl⟩
    · intro m c hread hreach
      have hreach2 : Event.readFile m ∈
          (migrateLoop faults cuts s.FS 1 (sortFiles files) db.createTable).2.2 := by
        simpa using hreach
      obtain ⟨before, after, hl, hmem, hok, heq⟩ :=
        migrateLoop_read_failure faults cuts s.FS m c hread (sortFiles files) 1 db.createTable hreach2
      rw [heq]
      simp only
      refine ⟨trivial, .glob s.Glob :: .begin :: .createTable :: .commit ::
        (migrateLoop faults cuts s.FS 1 before db.createTable).2.2, rfl, ?_, ?_, ?_, ?_⟩
      · intro ev hev g hg
        have hev2 : ev ∈ (migrateLoop faults cuts s.FS 1 before db.createTable).2.2 := by
          simp only [List.mem_cons] at hev
          rcases hev with rfl | rfl | rfl | rfl | hev
          · simp [Event.name?] at hg
          · simp [Event.name?] at hg
          · simp [Event.name?] at hg
          · simp [Event.name?] at hg
          · exact hev
        obtain ⟨t1, t2, -, -⟩ := migrateLoop_trace faults cuts s.FS before 1 db.createTable
        have hgb : g ∈ before := t1.subset (t2 ev hev2 g hg)
        have hsorted := sortFiles_sorted files
        rw [hl] at hsorted
        refine ⟨mem_sortFiles.mp (by rw [hl]; exact List.mem_append_left _ hgb), ?_⟩
        exact lt_of_le_of_ne (sorted_append_le hsorted g hgb) (fun h => hmem (h ▸ hgb))
      · intro g hg
        have hg2 : g ∈ reads (migrateLoop faults cuts s.FS 1 before db.createTable).2.2 := by
          simpa [reads] using hg
        rw [(migrateLoop_success_trace faults cuts s.FS before 1 db.createTable hok).1] at hg2
        exact migrateLoop_success_recorded faults cuts s.FS before 1 db.createTable hok g hg2
      · rw [(migrateLoop_success_trace faults cuts s.FS before 1 db.createTable hok).2.1]
        simp [bodies, createTable_applied]
      · rw [(migrateLoop_success_trace faults cuts s.FS before 1 db.createTable hok).2.2.1]
        simp [recorded, createTable_rows]

/-- Witness for C10: `002_b.sql` is recorded as applied and cannot be read;
`001_a.sql` is applied by the run before the read fails, its status query
coming right after its read and the begin of its transaction. -/
theorem Migrate_read_before_ledger_witness :
    (Source.Migrate
      ⟨⟨fun _ => .ok ["002_b.sql", "001_a.sql"],
        fun f => if f = "001_a.sql" then .ok "a" else .error "permission denied"⟩, "*.sql"⟩
      noFaults noCuts ⟨some ["002_b.sql"], []⟩).1 = some (readErr "002_b.sql" "permission denied") ∧
    ∃ pre2, [Event.glob "*.sql", .begin, .createTable, .commit, .readFile "001_a.sql", .begin] =
      pre2 ++ [.readFile "001_a.sql", .begin] :=
  have h := Migrate_read_before_ledger
    ⟨⟨fun _ => .ok ["002_b.sql", "001_a.sql"],
      fun f => if f = "001_a.sql" then .ok "a" else .error "permission denied"⟩, "*.sql"⟩
    noFaults noCuts ⟨some ["002_b.sql"], []⟩ ["002_b.sql", "001_a.sql"] rfl
  ⟨(h.2 "002_b.sql" "permission denied" (by simp) (by decide)).1,
    h.1 [.glob "*.sql", .begin, .createTable, .commit, .readFile "001_a.sql", .begin]
      [.record "001_a.sql", .body "001_a.sql" "a", .commit, .readFile "002_b.sql"]
      "001_a.sql" (by decide)⟩

/-! ## A body that fails -/

/-- A name with at most one record never gets a second one. -/
theorem migrateLoop_count_le_one (faults : Faults) (cuts : Cuts) (fs : FS) (m : String) :
    ∀ (l : List String) (n : Nat) (db : DBState), db.count m ≤ 1 →
      (migrateLoop faults cuts fs n l db).2.1.count m ≤ 1 := by
  intro l
  induction l with
  | nil =>
    intro n db h
    simpa [migrateLoop] using h
  | cons f rest ih =>
    intro n db h
    have hs := migrateOne_step faults cuts fs n f db
    have h1 : (migrateOne faults cuts fs n f db).2.1.count m ≤ 1 := by
      rcases step_db hs with hdb | ⟨rows, data, hrows, hcount, hdb⟩
      · rw [hdb]; exact h
      · rw [hdb]
        simp only [DBState.count, DBState.rows, Option.getD_some]
        rw [count_append_self]
        rw [count_of_rows hrows] at h
        by_cases hfm : f = m
        · subst hfm
          have : rows.count f = 0 := by omega
          simp [this]
        · simp [hfm, h]
    rcases hout : migrateOne faults cuts fs n f db with ⟨_ | e1, db1, evs⟩
    · rw [migrateLoop_cons_ok hout]
      rw [hout] at h1
      exact ih (n + 1) db1 h1
    · rw [migrateLoop_cons_some hout]
      rw [hout] at h1
      exact h1

/-! ## Names without a record -/

theorem step_prefix {faults : Faults} {cuts : Cuts} {fs : FS} {n : Nat} {f : String} {db : DBState}
    {out : Option Err × DBState × List Event} (hs : Step faults cuts fs n f db out) :
    executed out.2.2 <+: [f] ∧ recorded out.2.2 <+: [f] := by
  cases hs <;> simp [executed, recorded]

/-- A loop over distinct names none of which has a record sends the inserts
and the bodies in the order of the list, one migration after the other, and
all of them when it succeeds. -/
theorem migrateLoop_fresh (faults : Faults) (cuts : Cuts) (fs : FS) :
    ∀ (l : List String) (n : Nat) (db : DBState), l.Nodup → (∀ f ∈ l, db.count f = 0) →
      executed (migrateLoop faults cuts fs n l db).2.2 <+: l ∧
      recorded (migrateLoop faults cuts fs n l db).2.2 <+: l ∧
      ((migrateLoop faults cuts fs n l db).1 = none →
        executed (migrateLoop faults cuts fs n l db).2.2 = l ∧
        recorded (migrateLoop faults cuts fs n l db).2.2 = l) := by
  intro l
  induction l with
  | nil =>
    intro n db _ _
    simp [migrateLoop, executed, recorded]
  | cons f rest ih =>
    intro n db hnd hfresh
    have hs := migrateOne_step faults cuts fs n f db
    have hf : db.count f = 0 := hfresh f (List.mem_cons_self _ _)
    rcases hout : migrateOne faults cuts fs n f db with ⟨_ | e1, db1, evs⟩
    · rw [migrateLoop_cons_ok hout]
      rw [hout] at hs
      obtain ⟨data, rows, -, hrows, hcase⟩ := step_success hs rfl
      rcases hcase with ⟨hcount, -⟩ | ⟨-, heq⟩
      · rw [count_of_rows hrows, hcount] at hf
        simp at hf
      · simp only [Prod.mk.injEq, true_and] at heq
        obtain ⟨rfl, rfl⟩ := heq
        have hfresh1 : ∀ g ∈ rest,
            (DBState.mk (some (rows ++ [f])) (db.applied ++ [data])).count g = 0 := by
          intro g hg
          have hne : f ≠ g := fun h => (List.nodup_cons.mp hnd).1 (h ▸ hg)
          have := hfresh g (List.mem_cons_of_mem _ hg)
          rw [count_of_rows hrows] at this
          simp only [DBState.count, DBState.rows, Option.getD_some]
          rw [count_append_self]
          simp [hne, this]
        obtain ⟨i1, i2, i3⟩ := ih (n + 1) _ (List.nodup_cons.mp hnd).2 hfresh1
        simp only
        rw [executed_append, recorded_append]
        refine ⟨?_, ?_, fun h => ?_⟩
        · exact (List.prefix_cons_inj f).mpr i1
        · exact (List.prefix_cons_inj f).mpr i2
        · obtain ⟨j1, j2⟩ := i3 h
          rw [j1, j2]
          exact ⟨rfl, rfl⟩
    · rw [migrateLoop_cons_some hout]
      rw [hout] at hs
      obtain ⟨p1, p2⟩ := step_prefix hs
      simp only at p1 p2 ⊢
      refine ⟨p1.trans ⟨rest, rfl⟩, p2.trans ⟨rest, rfl⟩, fun h => ?_⟩
      simp at h

/-- The bodies a loop that succeeds sends are the contents of the files whose
bodies it sends. -/
theorem migrateLoop_bodies (faults : Faults) (cuts : Cuts) (fs : FS) (body : String → String) :
    ∀ (l : List String) (n : Nat) (db : DBState),
      (migrateLoop faults cuts fs n l db).1 = none → (∀ f ∈ l, fs.readFile f = .ok (body f)) →
      bodies (migrateLoop faults cuts fs n l db).2.2 =
        (executed (migrateLoop faults cuts fs n l db).2.2).map body := by
  intro l
  induction l with
  | nil =>
    intro n db _ _
    simp [migrateLoop, executed, bodies]
  | cons f rest ih =>
    intro n db h hbody
    obtain ⟨db1, evs, hone, hrest, -, htr⟩ := migrateLoop_cons_none h
    rw [htr, bodies_append, executed_append, List.map_append,
      ih (n + 1) db1 hrest (fun g hg => hbody g (List.mem_cons_of_mem _ hg))]
    have hs := migrateOne_step faults cuts fs n f db
    rw [hone] at hs
    obtain ⟨data, rows, hread, -, hcase⟩ := step_success hs rfl
    rw [hbody f (List.mem_cons_self _ _)] at hread
    simp only [Except.ok.injEq] at hread
    subst hread
    rcases hcase with ⟨-, heq⟩ | ⟨-, heq⟩
    · simp only [Prod.mk.injEq, true_and] at heq
      obtain ⟨rfl, rfl⟩ := heq
      simp [bodies, executed]
    · simp only [Prod.mk.injEq, true_and] at heq
      obtain ⟨rfl, rfl⟩ := heq
      simp [bodies, executed]

/-- A loop in which no call fails succeeds. -/
theorem migrateLoop_noFaults (faults : Faults) (cuts : Cuts) (fs : FS) (l : List String) (n : Nat)
    (db : DBState) (hreads : ∀ f ∈ l, ∃ data, fs.readFile f = .ok data)
    (hflt : ∀ i st, faults i st = none) (hsome : db.ledger.isSome) :
    (migrateLoop faults cuts fs n l db).1 = none := by
  cases h : (migrateLoop faults cuts fs n l db).1 with
  | none => rfl
  | some e =>
    exfalso
    obtain ⟨f, hf, i, c, pre, -, hcase⟩ := migrateLoop_failure faults cuts fs l n db e hsome h
    obtain ⟨data, hdata⟩ := hreads f hf
    rcases hcase with ⟨a, -, -⟩ | ⟨a, -, -⟩ | ⟨a, -, -⟩ | ⟨a, -, -⟩ | ⟨-, -, a, -, -⟩ | ⟨a, -, -⟩
    · rw [hdata] at a; simp at a
    all_goals rw [hflt] at a; simp at a

/-! ## The order of the run -/

/-- The loop asks the file system for the contents of files only. -/
theorem migrateLoop_congr (faults : Faults) (cuts : Cuts) (fs1 fs2 : FS) (h : fs1.readFile = fs2.readFile) :
    ∀ (l : List String) (n : Nat) (db : DBState),
      migrateLoop faults cuts fs1 n l db = migrateLoop faults cuts fs2 n l db := by
  intro l
  induction l with
  | nil => intro n db; rfl
  | cons f rest ih =>
    intro n db
    have hone : migrateOne faults cuts fs1 n f db = migrateOne faults cuts fs2 n f db := by
      unfold migrateOne
      rw [h]
    rw [migrateLoop_cons, migrateLoop_cons, hone]
    rcases migrateOne faults cuts fs2 n f db with ⟨_ | e1, db1, evs⟩
    · simp only
      rw [ih (n + 1) db1]
    · rfl

/-- C1: whatever order the glob lists the names in, Migrate works through
them sorted ascending.  The sorted run is ascending and a permutation of the
names; two sources that differ only in the order of the names the glob
returns give the same result, database state and trace; in every run the
files read are, in order, an initial part of the sorted run, and the bodies
sent follow the order of the reads; and when the names are distinct, none has
a record and no call fails, Migrate returns no error, having read every file
and sent every body in sorted order, and these bodies are what the database
gained. -/
theorem Migrate_order_invariant (s : Source) (faults : Faults) (cuts : Cuts) (db : DBState)
    (files : List String) (hglob : s.FS.glob s.Glob = .ok files) :
    (sortFiles files).Sorted (· ≤ ·) ∧ (sortFiles files).Perm files ∧
    (∀ (s2 : Source) files2, s2.FS.glob s2.Glob = .ok files2 → files2.Perm files →
      s2.FS.readFile = s.FS.readFile → s2.Glob = s.Glob →
      s2.Migrate faults cuts db = s.Migrate faults cuts db) ∧
    reads (s.Migrate faults cuts db).2.2 <+: sortFiles files ∧
    (executed (s.Migrate faults cuts db).2.2).Sublist (reads (s.Migrate faults cuts db).2.2) ∧
    (∀ body : String → String, files.Nodup → (∀ f ∈ files, db.count f = 0) →
      (∀ f ∈ files, s.FS.readFile f = .ok (body f)) → (∀ i st, faults i st = none) →
      (s.Migrate faults cuts db).1 = none ∧
      reads (s.Migrate faults cuts db).2.2 = sortFiles files ∧
      executed (s.Migrate faults cuts db).2.2 = sortFiles files ∧
      bodies (s.Migrate faults cuts db).2.2 = (sortFiles files).map body ∧
      (s.Migrate faults cuts db).2.1.applied = db.applied ++ (sortFiles files).map body) := by
  refine ⟨sortFiles_sorted files, sortFiles_perm files, ?_, ?_⟩
  · intro s2 files2 hglob2 hperm hrd hpat
    unfold Source.Migrate
    rw [hglob, hglob2, hpat]
    simp only
    rw [sortFiles_congr hperm]
    rcases BeginFunc (faults 0) db (schemaTx (faults 0)) with ⟨_ | e, db1, evs⟩
    · simp only
      rw [migrateLoop_congr faults cuts s2.FS s.FS hrd]
    · rfl
  · rcases Migrate_cases s faults cuts db files hglob with
      ⟨c, evs, h, hc⟩ | ⟨h1, h2, h3, h⟩
    · rw [h]
      simp only
      have hr : reads (Event.glob s.Glob :: evs) = [] ∧ executed (Event.glob s.Glob :: evs) = [] := by
        rcases hc with ⟨_, rfl⟩ | ⟨_, rfl⟩ | ⟨_, rfl⟩ <;> exact ⟨rfl, rfl⟩
      rw [hr.1, hr.2]
      refine ⟨List.nil_prefix, List.Sublist.refl _, ?_⟩
      intro body _ _ _ hflt
      exfalso
      rcases hc with ⟨hc, _⟩ | ⟨hc, _⟩ | ⟨hc, _⟩ <;> rw [hflt] at hc <;> simp at hc
    · rw [h]
      simp only
      obtain ⟨t1, -, t3, -⟩ := migrateLoop_trace faults cuts s.FS (sortFiles files) 1 db.createTable
      have hr : ∀ t : List Event,
          reads (.glob s.Glob :: .begin :: .createTable :: .commit :: t) = reads t ∧
          executed (.glob s.Glob :: .begin :: .createTable :: .commit :: t) = executed t ∧
          bodies (.glob s.Glob :: .begin :: .createTable :: .commit :: t) = bodies t :=
        fun t => ⟨rfl, rfl, rfl⟩
      rw [(hr _).1, (hr _).2.1, (hr _).2.2]
      refine ⟨t1, t3, ?_⟩
      intro body hnd hfresh hbody hflt
      have hok := migrateLoop_noFaults faults cuts s.FS (sortFiles files) 1 db.createTable
        (fun f hf => ⟨body f, hbody f (mem_sortFiles.mp hf)⟩) hflt rfl
      obtain ⟨u1, u2, -, -⟩ :=
        migrateLoop_success_trace faults cuts s.FS (sortFiles files) 1 db.createTable hok
      obtain ⟨v1, -⟩ := (migrateLoop_fresh faults cuts s.FS (sortFiles files) 1 db.createTable
        (sortFiles_nodup hnd)
        (fun f hf => by rw [createTable_count]; exact hfresh f (mem_sortFiles.mp hf))).2.2 hok
      have hb := migrateLoop_bodies faults cuts s.FS body (sortFiles files) 1 db.createTable hok
        (fun f hf => hbody f (mem_sortFiles.mp hf))
      rw [v1] at hb
      refine ⟨hok, u1, v1, hb, ?_⟩
      rw [u2, hb, createTable_applied]

/-- Witness for C1: the source lists `002_x.sql` before `001_y.sql`, and
Migrate executes `001_y.sql` before `002_x.sql`, as it does for the source
that lists them the other way round. -/
theorem Migrate_order_invariant_witness :
    executed (Source.Migrate ⟨FS.ofFiles [("002_x.sql", "x"), ("001_y.sql", "y")], "*.sql"⟩
        noFaults noCuts ⟨none, []⟩).2.2 = ["001_y.sql", "002_x.sql"] ∧
      (Source.Migrate ⟨FS.ofFiles [("002_x.sql", "x"), ("001_y.sql", "y")], "*.sql"⟩
        noFaults noCuts ⟨none, []⟩).2.1.applied = ["y", "x"] ∧
      Source.Migrate
        ⟨⟨fun _ => .ok ["001_y.sql", "002_x.sql"],
          (FS.ofFiles [("002_x.sql", "x"), ("001_y.sql", "y")]).readFile⟩, "*.sql"⟩
        noFaults noCuts ⟨none, []⟩ =
      Source.Migrate ⟨FS.ofFiles [("002_x.sql", "x"), ("001_y.sql", "y")], "*.sql"⟩
        noFaults noCuts ⟨none, []⟩ :=
  have hinv := (Migrate_order_invariant
    ⟨FS.ofFiles [("002_x.sql", "x"), ("001_y.sql", "y")], "*.sql"⟩ noFaults noCuts ⟨none, []⟩
    ["002_x.sql", "001_y.sql"] rfl).2.2.1
    ⟨⟨fun _ => .ok ["001_y.sql", "002_x.sql"],
      (FS.ofFiles [("002_x.sql", "x"), ("001_y.sql", "y")]).readFile⟩, "*.sql"⟩
    ["001_y.sql", "002_x.sql"] rfl (List.Perm.swap _ _ _) rfl rfl
  have h := (Migrate_order_invariant
    ⟨FS.ofFiles [("002_x.sql", "x"), ("001_y.sql", "y")], "*.sql"⟩ noFaults noCuts ⟨none, []⟩
    ["002_x.sql", "001_y.sql"] rfl).2.2.2.2.2
    (fun f => if f = "002_x.sql" then "x" else "y") (by decide)
    (fun f _ => by simp [DBState.count, DBState.rows])
    (fun f hf => by
      simp only [List.mem_cons, List.mem_singleton, List.not_mem_nil, or_false] at hf
      rcases hf with rfl | rfl <;> simp [FS.ofFiles, List.lookup])
    (fun _ _ => rfl)
  ⟨h.2.2.1.trans (by decide), h.2.2.2.2.trans (by decide), hinv⟩

/-! ## Running again after a failure -/

theorem migrateLoop_append (faults : Faults) (cuts : Cuts) (fs : FS) :
    ∀ (l1 l2 : List String) (n : Nat) (db : DBState),
      (migrateLoop faults cuts fs n l1 db).1 = none →
      migrateLoop faults cuts fs n (l1 ++ l2) db =
        ((migrateLoop faults cuts fs (n + l1.length) l2 (migrateLoop faults cuts fs n l1 db).2.1).1,
          (migrateLoop faults cuts fs (n + l1.length) l2 (migrateLoop faults cuts fs n l1 db).2.1).2.1,
          (migrateLoop faults cuts fs n l1 db).2.2 ++
            (migrateLoop faults cuts fs (n + l1.length) l2 (migrateLoop faults cuts fs n l1 db).2.1).2.2) := by
  intro l1
  induction l1 with
  | nil =>
    intro l2 n db _
    simp [migrateLoop]
  | cons f rest ih =>
    intro l2 n db h
    obtain ⟨db1, evs, hone, hrest, -, -⟩ := migrateLoop_cons_none h
    have harith : n + (f :: rest).length = n + 1 + rest.length := by
      simp only [List.length_cons]; omega
    rw [List.cons_append, migrateLoop_cons_ok hone, migrateLoop_cons_ok hone,
      ih l2 (n + 1) db1 hrest, harith]
    simp

theorem migrateLoop_append_fail (faults : Faults) (cuts : Cuts) (fs : FS) :
    ∀ (l1 l2 : List String) (n : Nat) (db : DBState) (e : Err),
      (migrateLoop faults cuts fs n l1 db).1 = some e →
      migrateLoop faults cuts fs n (l1 ++ l2) db = migrateLoop faults cuts fs n l1 db := by
  intro l1
  induction l1 with
  | nil =>
    intro l2 n db e h
    simp [migrateLoop] at h
  | cons f rest ih =>
    intro l2 n db e h
    rcases hout : migrateOne faults cuts fs n f db with ⟨_ | e1, db1, evs⟩
    · rw [migrateLoop_cons_ok hout] at h
      rw [List.cons_append, migrateLoop_cons_ok hout, migrateLoop_cons_ok hout,
        ih l2 (n + 1) db1 e h]
    · rw [List.cons_append, migrateLoop_cons_some hout, migrateLoop_cons_some hout]

/-- An iteration that reports an execution error: the body of its file was
sent and failed; the transaction is undone unless the body has ended it with
a commit of its own, in which case the record and the part of the body before
that commit are durable. -/
theorem step_exec_error {faults : Faults} {cuts : Cuts} {fs : FS} {n : Nat} {f : String}
    {db : DBState} {out : Option Err × DBState × List Event}
    (hs : Step faults cuts fs n f db out) {m c : String}
    (h : out.1 = some (commitErr m (execErr m c))) :
    m = f ∧ ∃ data rows, fs.readFile f = .ok data ∧ faults n .body = some c ∧
      db.ledger = some rows ∧ rows.count f ≠ 1 ∧
      out.2.2 = [.readFile f, .begin, .status f, .record f, .body f data, .rollback] ∧
      (cuts data = none → out.2.1 = db) ∧
      (∀ part, cuts data = some part →
        out.2.1 = { ledger := some (rows ++ [f]), applied := db.applied ++ [part] }) := by
  cases hs with
  | bodyFail data c2 rows hread hbegin hstatus hrows hcount hrecord hbody hcut =>
    simp only [Option.some.injEq, Err.errorf.injEq, Err.cause.injEq, true_and] at h
    obtain ⟨rfl, -, rfl⟩ := h
    exact ⟨rfl, data, rows, hread, hbody, hrows, hcount, rfl, fun _ => rfl,
      fun part hp => by rw [hcut] at hp; simp at hp⟩
  | bodyFailCut data c2 part rows hread hbegin hstatus hrows hcount hrecord hbody hcut =>
    simp only [Option.some.injEq, Err.errorf.injEq, Err.cause.injEq, true_and] at h
    obtain ⟨rfl, -, rfl⟩ := h
    refine ⟨rfl, data, rows, hread, hbody, hrows, hcount, rfl,
      fun hp => by rw [hcut] at hp; simp at hp, fun part2 hp => ?_⟩
    rw [hcut] at hp
    simp only [Option.some.injEq] at hp
    rw [hp]
  | _ => simp at h

/-- An iteration whose body is sent and fails reports the execution error of
its file. -/
theorem step_body_fails {faults : Faults} {cuts : Cuts} {fs : FS} {n : Nat} {f : String}
    {db : DBState} {out : Option Err × DBState × List Event}
    (hs : Step faults cuts fs n f db out) {g data c : String}
    (hmem : Event.body g data ∈ out.2.2) (hbody : faults n .body = some c) :
    out.1 = some (commitErr f (execErr f c)) := by
  cases hs with
  | bodyFail data2 c2 rows hread hbegin hstatus hrows hcount hrecord hbody2 hcut =>
    rw [hbody] at hbody2
    simp only [Option.some.injEq] at hbody2
    rw [hbody2]
  | bodyFailCut data2 c2 part rows hread hbegin hstatus hrows hcount hrecord hbody2 hcut =>
    rw [hbody] at hbody2
    simp only [Option.some.injEq] at hbody2
    rw [hbody2]
  | commitFail data2 c2 rows hread hbegin hstatus hrows hcount hrecord hbody2 hcommit hcut =>
    rw [hbody] at hbody2
    simp at hbody2
  | commitFailCut data2 c2 part rows hread hbegin hstatus hrows hcount hrecord hbody2 hcommit
      hcut =>
    rw [hbody] at hbody2
    simp at hbody2
  | apply data2 rows hread hbegin hstatus hrows hcount hrecord hbody2 hcommit =>
    rw [hbody] at hbody2
    simp at hbody2
  | _ => simp at hmem

/-- A failed loop that reports an execution error has sent, as its last body,
the body of the migration the error names, after a loop that succeeded over
the names before it. -/
theorem migrateLoop_exec_error (faults : Faults) (cuts : Cuts) (fs : FS) (l : List String)
    (n : Nat) (db : DBState) (m c : String)
    (h : (migrateLoop faults cuts fs n l db).1 = some (commitErr m (execErr m c))) :
    ∃ before after data rows, l = before ++ m :: after ∧
      (migrateLoop faults cuts fs n before db).1 = none ∧
      fs.readFile m = .ok data ∧ faults (n + before.length) .body = some c ∧
      (migrateLoop faults cuts fs n before db).2.1.ledger = some rows ∧ rows.count m ≠ 1 ∧
      (cuts data = none →
        (migrateLoop faults cuts fs n l db).2.1 = (migrateLoop faults cuts fs n before db).2.1) ∧
      (∀ part, cuts data = some part →
        (migrateLoop faults cuts fs n l db).2.1 =
          { ledger := some (rows ++ [m]),
            applied := (migrateLoop faults cuts fs n before db).2.1.applied ++ [part] }) ∧
      (migrateLoop faults cuts fs n l db).2.2 = (migrateLoop faults cuts fs n before db).2.2 ++
        [.readFile m, .begin, .status m, .record m, .body m data, .rollback] := by
  obtain ⟨before, m2, after, db2, evs, hl, hok, hone, hdb, htr⟩ :=
    migrateLoop_split faults cuts fs l n db _ h
  have hs := migrateOne_step faults cuts fs (n + before.length) m2
    (migrateLoop faults cuts fs n before db).2.1
  rw [hone] at hs
  obtain ⟨rfl, data, rows, hread, hbody, hrows, hcount, ht, hc1, hc2⟩ := step_exec_error hs rfl
  simp only at ht hc1 hc2
  refine ⟨before, after, data, rows, hl, hok, hread, hbody, hrows, hcount, ?_, ?_, ?_⟩
  · intro hcut
    rw [hdb, hc1 hcut]
  · intro part hcut
    rw [hdb, hc2 part hcut]
  · rw [htr, ht]

/-- A loop that sends the body of a migration has succeeded over the names
before it, and the body is sent by the iteration of that migration. -/
theorem migrateLoop_body_reached (faults : Faults) (cuts : Cuts) (fs : FS) (m data : String) :
    ∀ (l : List String) (n : Nat) (db : DBState),
      Event.body m data ∈ (migrateLoop faults cuts fs n l db).2.2 →
      ∃ before after, l = before ++ m :: after ∧
        (migrateLoop faults cuts fs n before db).1 = none ∧
        Event.body m data ∈ (migrateOne faults cuts fs (n + before.length) m
          (migrateLoop faults cuts fs n before db).2.1).2.2 := by
  intro l
  induction l with
  | nil =>
    intro n db h
    simp [migrateLoop] at h
  | cons f rest ih =>
    intro n db h
    have hs := migrateOne_step faults cuts fs n f db
    have hhere : Event.body m data ∈ (migrateOne faults cuts fs n f db).2.2 →
        ∃ before after, f :: rest = before ++ m :: after ∧
          (migrateLoop faults cuts fs n before db).1 = none ∧
          Event.body m data ∈ (migrateOne faults cuts fs (n + before.length) m
            (migrateLoop faults cuts fs n before db).2.1).2.2 := by
      intro hmem
      have hfm : m = f := (step_trace hs).2.2.1 _ hmem m rfl
      subst hfm
      exact ⟨[], rest, rfl, rfl, by simpa [migrateLoop] using hmem⟩
    rcases hout : migrateOne faults cuts fs n f db with ⟨_ | e1, db1, evs⟩
    · rw [migrateLoop_cons_ok hout] at h
      simp only at h
      rcases List.mem_append.mp h with h | h
      · exact hhere (by rw [hout]; exact h)
      · obtain ⟨before, after, hl, hok, hmem⟩ := ih (n + 1) db1 h
        have harith : n + (f :: before).length = n + 1 + before.length := by
          simp only [List.length_cons]; omega
        refine ⟨f :: before, after, by rw [hl]; rfl, ?_, ?_⟩
        · rw [migrateLoop_cons_ok hout]
          exact hok
        · rw [migrateLoop_cons_ok hout, harith]
          exact hmem
    · rw [migrateLoop_cons_some hout] at h
      exact hhere (by rw [hout]; exact h)

theorem split_unique {before after b2 a2 : List String} {m : String}
    (hnd : (before ++ m :: after).Nodup) (h : before ++ m :: after = b2 ++ m :: a2) :
    before = b2 ∧ after = a2 := by
  have hnot := List.nodup_middle.mp hnd
  rw [List.nodup_cons, List.mem_append, not_or] at hnot
  have := (List.append_cons_inj_of_not_mem hnot.1.1 hnot.1.2).mp h
  exact ⟨this.1, this.2.2⟩

/-- A loop over distinct names that sends the body of `m`, which fails: the
loop has succeeded over the names before `m` and stops with the execution
error of `m`, the rollback being its last call; the transaction of `m` is
undone unless the body has ended it with a commit of its own, in which case
the record of `m` and the part of the body before that commit are durable. -/
theorem migrateLoop_body_fails (faults : Faults) (cuts : Cuts) (fs : FS)
    (before after : List String) (m data c : String) (n : Nat) (db : DBState)
    (hnd : (before ++ m :: after).Nodup)
    (hreach : Event.body m data ∈ (migrateLoop faults cuts fs n (before ++ m :: after) db).2.2)
    (hfail : faults (n + before.length) .body = some c) :
    (migrateLoop faults cuts fs n before db).1 = none ∧
    (migrateLoop faults cuts fs n (before ++ m :: after) db).1 =
      some (commitErr m (execErr m c)) ∧
    (migrateLoop faults cuts fs n (before ++ m :: after) db).2.2 =
      (migrateLoop faults cuts fs n before db).2.2 ++
        [.readFile m, .begin, .status m, .record m, .body m data, .rollback] ∧
    ∃ rows, (migrateLoop faults cuts fs n before db).2.1.ledger = some rows ∧
      rows.count m ≠ 1 ∧
      (cuts data = none →
        (migrateLoop faults cuts fs n (before ++ m :: after) db).2.1 =
          (migrateLoop faults cuts fs n before db).2.1) ∧
      (∀ part, cuts data = some part →
        (migrateLoop faults cuts fs n (before ++ m :: after) db).2.1 =
          { ledger := some (rows ++ [m]),
            applied := (migrateLoop faults cuts fs n before db).2.1.applied ++ [part] }) := by
  obtain ⟨b2, a2, hl, hok, hmem⟩ :=
    migrateLoop_body_reached faults cuts fs m data (before ++ m :: after) n db hreach
  obtain ⟨rfl, rfl⟩ := split_unique hnd hl
  have hs := migrateOne_step faults cuts fs (n + before.length) m
    (migrateLoop faults cuts fs n before db).2.1
  have herr := step_body_fails hs hmem hfail
  obtain ⟨-, data2, rows, -, -, hrows, hcount, ht, hc1, hc2⟩ := step_exec_error hs herr
  have hdata : data = data2 := by
    rw [ht] at hmem
    simpa using hmem
  subst hdata
  have hloop : migrateLoop faults cuts fs n (before ++ m :: after) db =
      ((migrateOne faults cuts fs (n + before.length) m
          (migrateLoop faults cuts fs n before db).2.1).1,
        (migrateOne faults cuts fs (n + before.length) m
          (migrateLoop faults cuts fs n before db).2.1).2.1,
        (migrateLoop faults cuts fs n before db).2.2 ++
          (migrateOne faults cuts fs (n + before.length) m
            (migrateLoop faults cuts fs n before db).2.1).2.2) := by
    rw [migrateLoop_append faults cuts fs before (m :: after) n db hok]
    rcases hout : migrateOne faults cuts fs (n + before.length) m
      (migrateLoop faults cuts fs n before db).2.1 with ⟨r, db2, evs⟩
    rw [hout] at herr
    simp only at herr
    subst herr
    rw [migrateLoop_cons_some hout]
  rw [hloop]
  exact ⟨hok, herr, by rw [ht], rows, hrows, hcount, hc1, hc2⟩

/-- C2, as the code has it: in a sorted run of distinct names
`before ++ m :: after`, let `m` have no record, and let the body of `m` be
sent and fail.  Then Migrate returns an error, the execution error of `m`
inside the commit layer; the rollback of the transaction of `m` is the last
call of the run, and every call of the run is about a name that is not after
`m` in sort order, so no later migration was read, given a transaction or
sent a command.  When the body does not end the transaction itself, the
ledger afterwards has no record for `m` and what is durable of the bodies is
what was sent before this transaction: the insert and the body of `m` are
undone together.  When the body has ended the transaction with a commit of
its own before the statement that fails, the record of `m` is in the ledger
and the part of the body before that commit is durable. -/
theorem Migrate_body_failure_atomic (s : Source) (faults : Faults) (cuts : Cuts) (db : DBState)
    (files before after : List String) (m data c : String)
    (hglob : s.FS.glob s.Glob = .ok files) (hnd : files.Nodup)
    (hsplit : sortFiles files = before ++ m :: after)
    (hnew : db.count m = 0)
    (hreach : Event.body m data ∈ (s.Migrate faults cuts db).2.2)
    (hfail : faults (before.length + 1) .body = some c) :
    (s.Migrate faults cuts db).1 = some (commitErr m (execErr m c)) ∧
    (∃ pre, (s.Migrate faults cuts db).2.2 =
        pre ++ [.readFile m, .begin, .status m, .record m, .body m data, .rollback] ∧
      (∀ ev ∈ pre, ∀ g, ev.name? = some g → g ∈ files ∧ g < m) ∧
      (cuts data = none →
        (s.Migrate faults cuts db).2.1.count m = 0 ∧
        (s.Migrate faults cuts db).2.1.rows = db.rows ++ recorded pre ∧
        (s.Migrate faults cuts db).2.1.applied = db.applied ++ bodies pre) ∧
      (∀ part, cuts data = some part →
        (s.Migrate faults cuts db).2.1.count m = 1 ∧
        (s.Migrate faults cuts db).2.1.rows = db.rows ++ recorded pre ++ [m] ∧
        (s.Migrate faults cuts db).2.1.applied = db.applied ++ bodies pre ++ [part])) ∧
    (∀ ev ∈ (s.Migrate faults cuts db).2.2, ∀ g, ev.name? = some g → g ∈ files ∧ g ≤ m) := by
  have hnds : (before ++ m :: after).Nodup := hsplit ▸ sortFiles_nodup hnd
  have hmemf : ∀ x, x ∈ before ++ m :: after → x ∈ files := fun x hx =>
    mem_sortFiles.mp (by rw [hsplit]; exact hx)
  have hsorted : (before ++ m :: after).Sorted (· ≤ ·) := hsplit ▸ sortFiles_sorted files
  have hmb : m ∉ before := by
    have hnot := List.nodup_middle.mp hnds
    rw [List.nodup_cons, List.mem_append, not_or] at hnot
    exact hnot.1.1
  rcases Migrate_cases s faults cuts db files hglob with
    ⟨c0, evs, h, hc⟩ | ⟨_, _, _, h⟩
  · rw [h] at hreach
    exfalso
    rcases hc with ⟨_, rfl⟩ | ⟨_, rfl⟩ | ⟨_, rfl⟩ <;> simp at hreach
  · rw [h] at hreach ⊢
    rw [hsplit] at hreach ⊢
    simp only at hreach ⊢
    have hreach2 : Event.body m data ∈
        (migrateLoop faults cuts s.FS 1 (before ++ m :: after) db.createTable).2.2 := by
      simpa using hreach
    obtain ⟨hok, herr, htr, rows, hrows, hcount, hc1, hc2⟩ :=
      migrateLoop_body_fails faults cuts s.FS before after m data c 1 db.createTable hnds hreach2
        (by rw [Nat.add_comm]; exact hfail)
    obtain ⟨t1, t2, -, -⟩ := migrateLoop_trace faults cuts s.FS before 1 db.createTable
    obtain ⟨-, u2, u3, -⟩ :=
      migrateLoop_success_trace faults cuts s.FS before 1 db.createTable hok
    have hle := migrateLoop_count_le_one faults cuts s.FS m before 1 db.createTable
      (by rw [createTable_count, hnew]; exact Nat.zero_le 1)
    rw [count_of_rows hrows] at hle
    have hzero : rows.count m = 0 := by omega
    have hrows2 : rows = db.rows ++
        recorded (migrateLoop faults cuts s.FS 1 before db.createTable).2.2 := by
      have := u3
      simp only [DBState.rows, hrows, Option.getD_some] at this
      rw [this]
      rfl
    have hnames : ∀ ev ∈ (migrateLoop faults cuts s.FS 1 before db.createTable).2.2,
        ∀ g, ev.name? = some g → g ∈ files ∧ g < m := by
      intro ev hev g hg
      have hgb : g ∈ before := t1.subset (t2 ev hev g hg)
      exact ⟨hmemf g (List.mem_append_left _ hgb),
        lt_of_le_of_ne (sorted_append_le hsorted g hgb) (fun h => hmb (h ▸ hgb))⟩
    have hpre : ∀ t : List Event,
        recorded (.glob s.Glob :: .begin :: .createTable :: .commit :: t) = recorded t ∧
        bodies (.glob s.Glob :: .begin :: .createTable :: .commit :: t) = bodies t :=
      fun t => ⟨rfl, rfl⟩
    refine ⟨herr, ⟨.glob s.Glob :: .begin :: .createTable :: .commit ::
      (migrateLoop faults cuts s.FS 1 before db.createTable).2.2, by rw [htr]; rfl, ?_, ?_, ?_⟩,
      ?_⟩
    · intro ev hev g hg
      simp only [List.mem_cons] at hev
      rcases hev with rfl | rfl | rfl | rfl | hev
      · simp [Event.name?] at hg
      · simp [Event.name?] at hg
      · simp [Event.name?] at hg
      · simp [Event.name?] at hg
      · exact hnames ev hev g hg
    · intro hcut
      rw [hc1 hcut, (hpre _).1, (hpre _).2]
      refine ⟨by rw [count_of_rows hrows]; exact hzero, ?_, ?_⟩
      · simp only [DBState.rows, hrows, Option.getD_some]
        exact hrows2
      · rw [u2, createTable_applied]
    · intro part hcut
      rw [hc2 part hcut, (hpre _).1, (hpre _).2]
      refine ⟨?_, ?_, ?_⟩
      · simp only [DBState.count, DBState.rows, Option.getD_some]
        rw [count_append_self, hzero]
        simp
      · show rows ++ [m] = _
        rw [hrows2]
      · simp only
        rw [u2, createTable_applied]
    · intro ev hev g hg
      rw [htr] at hev
      simp only [List.mem_cons, List.mem_append] at hev
      rcases hev with rfl | rfl | rfl | rfl | hev | hev
      · simp [Event.name?] at hg
      · simp [Event.name?] at hg
      · simp [Event.name?] at hg
      · simp [Event.name?] at hg
      · exact ⟨(hnames ev hev g hg).1, le_of_lt (hnames ev hev g hg).2⟩
      · have hgm : g = m := by
          rcases hev with rfl | rfl | rfl | rfl | rfl | rfl | hev <;>
            simp [Event.name?] at hg <;> first | exact hg.symm | skip
          simp at hev
        rw [hgm]
        exact ⟨hmemf m (List.mem_append_right _ (List.mem_cons_self _ _)), le_refl m⟩

/-- Witness for C2: of three migrations the body of the second one fails,
first without a commit of its own, then after one. -/
theorem Migrate_body_failure_atomic_witness :
    ((Source.Migrate
        ⟨FS.ofFiles [("001_a.sql", "a"), ("002_b.sql", "b"), ("003_c.sql", "c")], "*.sql"⟩
        (faultAt 2 .body "syntax error") noCuts ⟨none, []⟩).1 =
          some (commitErr "002_b.sql" (execErr "002_b.sql" "syntax error")) ∧
      (Source.Migrate
        ⟨FS.ofFiles [("001_a.sql", "a"), ("002_b.sql", "b"), ("003_c.sql", "c")], "*.sql"⟩
        (faultAt 2 .body "syntax error") noCuts ⟨none, []⟩).2.1.count "002_b.sql" = 0) ∧
    (Source.Migrate
      ⟨FS.ofFiles [("001_a.sql", "a"), ("002_b.sql", "commit; selec 1"), ("003_c.sql", "c")],
        "*.sql"⟩
      (faultAt 2 .body "syntax error") (cutAt "commit; selec 1" "commit;")
      ⟨none, []⟩).2.1.count "002_b.sql" = 1 :=
  have h := Migrate_body_failure_atomic
    ⟨FS.ofFiles [("001_a.sql", "a"), ("002_b.sql", "b"), ("003_c.sql", "c")], "*.sql"⟩
    (faultAt 2 .body "syntax error") noCuts ⟨none, []⟩
    ["001_a.sql", "002_b.sql", "003_c.sql"] ["001_a.sql"] ["003_c.sql"] "002_b.sql" "b"
    "syntax error" rfl (by decide) (by decide) rfl (by decide) rfl
  have h2 := Migrate_body_failure_atomic
    ⟨FS.ofFiles [("001_a.sql", "a"), ("002_b.sql", "commit; selec 1"), ("003_c.sql", "c")],
      "*.sql"⟩
    (faultAt 2 .body "syntax error") (cutAt "commit; selec 1" "commit;") ⟨none, []⟩
    ["001_a.sql", "002_b.sql", "003_c.sql"] ["001_a.sql"] ["003_c.sql"] "002_b.sql"
    "commit; selec 1" "syntax error" rfl (by decide) (by decide) rfl (by decide) rfl
  ⟨⟨h.1, h.2.1.elim fun pre hp => (hp.2.2.1 rfl).1⟩,
    h2.2.1.elim fun pre hp => (hp.2.2.2 "commit;" (by decide)).1⟩

/-- Counterexample to C2 as stated: the body of `001_a.sql`, which has no
record, is `commit; insert into missing_table values (1)`; its second
statement fails after its first one has committed the transaction.  Migrate
returns the execution error, and the ledger afterwards holds the record of
`001_a.sql`. -/
theorem Migrate_body_failure_leaves_record :
    (DBState.mk none []).count "001_a.sql" = 0 ∧
      Source.Migrate
        ⟨FS.ofFiles [("001_a.sql", "commit; insert into missing_table values (1)")], "*.sql"⟩
        (faultAt 1 .body "relation \"missing_table\" does not exist")
        (cutAt "commit; insert into missing_table values (1)" "commit;") ⟨none, []⟩ =
      (some (commitErr "001_a.sql"
          (execErr "001_a.sql" "relation \"missing_table\" does not exist")),
        ⟨some ["001_a.sql"], ["commit;"]⟩,
        [.glob "*.sql", .begin, .createTable, .commit, .readFile "001_a.sql", .begin,
          .status "001_a.sql", .record "001_a.sql",
          .body "001_a.sql" "commit; insert into missing_table values (1)", .rollback]) ∧
      (DBState.mk (some ["001_a.sql"]) ["commit;"]).count "001_a.sql" = 1 := by
  decide

/-- A loop over distinct names of which the first ones have exactly one
record and the others none: the first ones are skipped, and the inserts and
bodies sent are those of the others, in order, up to where the loop stops. -/
theorem migrateLoop_resume (faults : Faults) (cuts : Cuts) (fs : FS) (before after : List String)
    (m : String) (n : Nat) (db : DBState) (hnd : (before ++ m :: after).Nodup)
    (hdone : ∀ f ∈ before, db.count f = 1)
    (hfresh : ∀ f ∈ m :: after, db.count f = 0) :
    executed (migrateLoop faults cuts fs n (before ++ m :: after) db).2.2 <+: m :: after ∧
    recorded (migrateLoop faults cuts fs n (before ++ m :: after) db).2.2 <+: m :: after ∧
    ((migrateLoop faults cuts fs n (before ++ m :: after) db).1 = none →
      executed (migrateLoop faults cuts fs n (before ++ m :: after) db).2.2 = m :: after ∧
      recorded (migrateLoop faults cuts fs n (before ++ m :: after) db).2.2 = m :: after) ∧
    (∀ m2 c2,
      (migrateLoop faults cuts fs n (before ++ m :: after) db).1 =
        some (commitErr m2 (execErr m2 c2)) →
      ∃ mid after2, m :: after = mid ++ m2 :: after2 ∧
        executed (migrateLoop faults cuts fs n (before ++ m :: after) db).2.2 = mid ++ [m2]) := by
  have hndb : (m :: after).Nodup := (List.nodup_append.mp hnd).2.1
  obtain ⟨k1, k2, k3, -⟩ := migrateLoop_all_recorded faults cuts fs before n db hdone
  cases hb : (migrateLoop faults cuts fs n before db).1 with
  | none =>
    rw [migrateLoop_append faults cuts fs before (m :: after) n db hb]
    simp only
    rw [k1, executed_append, recorded_append, k2, k3]
    simp only [List.nil_append]
    obtain ⟨f1, f2, f3⟩ :=
      migrateLoop_fresh faults cuts fs (m :: after) (n + before.length) db hndb hfresh
    refine ⟨f1, f2, f3, ?_⟩
    intro m2 c2 he
    obtain ⟨mid, after2, data, rows, hl, hok, -, -, -, -, -, -, htr⟩ :=
      migrateLoop_exec_error faults cuts fs (m :: after) (n + before.length) db m2 c2 he
    refine ⟨mid, after2, hl, ?_⟩
    have hndm : mid.Nodup := by
      rw [hl] at hndb
      exact (List.nodup_append.mp hndb).1
    have hfm : ∀ f ∈ mid, db.count f = 0 := fun f hf =>
      hfresh f (by rw [hl]; exact List.mem_append_left _ hf)
    obtain ⟨g1, -⟩ :=
      (migrateLoop_fresh faults cuts fs mid (n + before.length) db hndm hfm).2.2 hok
    rw [htr, executed_append, g1]
    rfl
  | some e =>
    rw [migrateLoop_append_fail faults cuts fs before (m :: after) n db e hb, k2, k3]
    refine ⟨List.nil_prefix, List.nil_prefix, ?_, ?_⟩
    · intro h
      rw [hb] at h
      simp at h
    · intro m2 c2 he
      exfalso
      obtain ⟨b2, a2, data, rows, -, -, -, -, -, -, -, -, htr⟩ :=
        migrateLoop_exec_error faults cuts fs before n db m2 c2 he
      rw [htr, executed_append] at k2
      simp [executed] at k2

/-- C5, as the code has it: let the sorted run of distinct names be
`before ++ m :: after`, none of them recorded, and let a first run fail with
the execution error of `m`, whose body does not end its transaction itself.
Then it is the call of the body of `m` that failed, and the first run has sent
the bodies of `before` and of `m`, in order; after
it the ledger has gained exactly the records of `before`, one each, and the
database their bodies, while `m` and the names after it have no record.  A
second run with the same source on that database sends no insert and no body
for the names of `before`; the inserts and bodies it sends are, in order, an
initial part of `m :: after`: all of them when it returns no error, and
those up to and including the migration whose body fails when it stops at an
execution error again. -/
theorem Migrate_resumes (s : Source) (faults faults2 : Faults) (cuts : Cuts) (db : DBState)
    (files before after : List String) (m c : String)
    (hglob : s.FS.glob s.Glob = .ok files) (hnd : files.Nodup)
    (hsplit : sortFiles files = before ++ m :: after)
    (hfresh : ∀ f ∈ files, db.count f = 0)
    (hfail : (s.Migrate faults cuts db).1 = some (commitErr m (execErr m c)))
    (hcut : ∀ data, s.FS.readFile m = .ok data → cuts data = none) :
    (faults (before.length + 1) .body = some c ∧
      executed (s.Migrate faults cuts db).2.2 = before ++ [m] ∧
      (s.Migrate faults cuts db).2.1.rows = db.rows ++ before ∧
      (∀ f ∈ before, (s.Migrate faults cuts db).2.1.count f = 1) ∧
      (∀ f ∈ m :: after, (s.Migrate faults cuts db).2.1.count f = 0) ∧
      (∀ body : String → String, (∀ f ∈ before, s.FS.readFile f = .ok (body f)) →
        (s.Migrate faults cuts db).2.1.applied = db.applied ++ before.map body)) ∧
    ((∀ f ∈ before, f ∉ executed (s.Migrate faults2 cuts (s.Migrate faults cuts db).2.1).2.2 ∧
        f ∉ recorded (s.Migrate faults2 cuts (s.Migrate faults cuts db).2.1).2.2) ∧
      executed (s.Migrate faults2 cuts (s.Migrate faults cuts db).2.1).2.2 <+: m :: after ∧
      recorded (s.Migrate faults2 cuts (s.Migrate faults cuts db).2.1).2.2 <+: m :: after ∧
      ((s.Migrate faults2 cuts (s.Migrate faults cuts db).2.1).1 = none →
        executed (s.Migrate faults2 cuts (s.Migrate faults cuts db).2.1).2.2 = m :: after ∧
        recorded (s.Migrate faults2 cuts (s.Migrate faults cuts db).2.1).2.2 = m :: after) ∧
      (∀ m2 c2, (s.Migrate faults2 cuts (s.Migrate faults cuts db).2.1).1 =
          some (commitErr m2 (execErr m2 c2)) →
        ∃ mid after2, m :: after = mid ++ m2 :: after2 ∧
          executed (s.Migrate faults2 cuts (s.Migrate faults cuts db).2.1).2.2 = mid ++ [m2])) := by
  have hnds : (before ++ m :: after).Nodup := hsplit ▸ sortFiles_nodup hnd
  have hmem : ∀ f, f ∈ before ++ m :: after → f ∈ files := fun f hf =>
    mem_sortFiles.mp (by rw [hsplit]; exact hf)
  have hndb : before.Nodup := (List.nodup_append.mp hnds).1
  have hdisj := (List.nodup_append.mp hnds).2.2
  rcases Migrate_cases s faults cuts db files hglob with ⟨c0, evs, h, -⟩ | ⟨-, -, -, h⟩
  · rw [h] at hfail
    simp at hfail
  · rw [h] at hfail
    simp only at hfail
    obtain ⟨b2, a2, data, rows, hl, hok, hread, hflt, -, -, hdb0, -, htr⟩ :=
      migrateLoop_exec_error faults cuts s.FS (sortFiles files) 1 db.createTable m c hfail
    have hdb := hdb0 (hcut data hread)
    have hparts : before = b2 ∧ m = m ∧ after = a2 := by
      have hnot := List.nodup_middle.mp hnds
      rw [List.nodup_cons, List.mem_append, not_or] at hnot
      exact (List.append_cons_inj_of_not_mem hnot.1.1 hnot.1.2).mp (hsplit.symm.trans hl)
    obtain ⟨rfl, -, rfl⟩ := hparts
    obtain ⟨g1, g2⟩ := (migrateLoop_fresh faults cuts s.FS before 1 db.createTable hndb
      (fun f hf => by
        rw [createTable_count]
        exact hfresh f (hmem f (List.mem_append_left _ hf)))).2.2 hok
    obtain ⟨u1, u2, u3, -⟩ := migrateLoop_success_trace faults cuts s.FS before 1 db.createTable hok
    have hdb1 : (s.Migrate faults cuts db).2.1 =
        (migrateLoop faults cuts s.FS 1 before db.createTable).2.1 := by rw [h]; exact hdb
    have htr1 : executed (s.Migrate faults cuts db).2.2 = before ++ [m] := by
      rw [h]
      simp only
      rw [htr]
      change executed (_ ++ _) = _
      rw [executed_append, g1]
      rfl
    have hrows : (s.Migrate faults cuts db).2.1.rows = db.rows ++ before := by
      rw [hdb1, u3, g2, createTable_rows]
    have hcount : ∀ f, (s.Migrate faults cuts db).2.1.count f = db.count f + before.count f := by
      intro f
      simp only [DBState.count, hrows, List.count_append]
    have hdone : ∀ f ∈ before, (s.Migrate faults cuts db).2.1.count f = 1 := by
      intro f hf
      rw [hcount, hfresh f (hmem f (List.mem_append_left _ hf)),
        List.count_eq_one_of_mem hndb hf]
    have hnone : ∀ f ∈ m :: after, (s.Migrate faults cuts db).2.1.count f = 0 := by
      intro f hf
      rw [hcount, hfresh f (hmem f (List.mem_append_right _ hf)),
        List.count_eq_zero_of_not_mem (fun hb => hdisj hb hf)]
    refine ⟨⟨by rw [Nat.add_comm]; exact hflt, htr1, hrows, hdone, hnone, ?_⟩, ?_⟩
    · intro body hbody
      rw [hdb1, u2, migrateLoop_bodies faults cuts s.FS body before 1 db.createTable hok hbody, g1,
        createTable_applied]
    · have hsome1 : (s.Migrate faults cuts db).2.1.ledger.isSome := by
        rw [hdb1]
        exact (migrateLoop_frame faults cuts s.FS before 1 db.createTable).2.2.1 rfl
      generalize (s.Migrate faults cuts db).2.1 = db1 at hdone hnone hsome1
      obtain ⟨rows1, hrows1⟩ := Option.isSome_iff_exists.mp hsome1
      have hskip : ∀ t : List String, t <+: m :: after → ∀ f ∈ before, f ∉ t :=
        fun t ht f hf hft => hdisj hf (ht.subset hft)
      rcases Migrate_cases s faults2 cuts db1 files hglob with ⟨c0, evs, h2, hc⟩ | ⟨-, -, -, h2⟩
      · rw [h2]
        simp only
        have hr : executed (Event.glob s.Glob :: evs) = [] ∧
            recorded (Event.glob s.Glob :: evs) = [] := by
          rcases hc with ⟨_, rfl⟩ | ⟨_, rfl⟩ | ⟨_, rfl⟩ <;> exact ⟨rfl, rfl⟩
        rw [hr.1, hr.2]
        refine ⟨fun f _ => ⟨List.not_mem_nil f, List.not_mem_nil f⟩, List.nil_prefix,
          List.nil_prefix, fun h => by simp at h, fun m2 c2 h => by simp at h⟩
      · rw [h2, createTable_of_some hrows1, hsplit]
        simp only
        have hr : ∀ t : List Event,
            executed (.glob s.Glob :: .begin :: .createTable :: .commit :: t) = executed t ∧
            recorded (.glob s.Glob :: .begin :: .createTable :: .commit :: t) = recorded t :=
          fun t => ⟨rfl, rfl⟩
        rw [(hr _).1, (hr _).2]
        obtain ⟨r1, r2, r3, r4⟩ := migrateLoop_resume faults2 cuts s.FS before after m 1 db1 hnds
          hdone hnone
        exact ⟨fun f hf => ⟨hskip _ r1 f hf, hskip _ r2 f hf⟩, r1, r2, r3, r4⟩

/-- Witness for C5: the body of `002_b.sql` fails in the first run; a second
run in which nothing fails executes `002_b.sql` and `003_c.sql`, and a second
run in which the body of `003_c.sql` fails executes the same two and stops. -/
theorem Migrate_resumes_witness :
    executed (Source.Migrate
      ⟨FS.ofFiles [("001_a.sql", "a"), ("002_b.sql", "b"), ("003_c.sql", "c")], "*.sql"⟩
      noFaults noCuts
      (Source.Migrate
        ⟨FS.ofFiles [("001_a.sql", "a"), ("002_b.sql", "b"), ("003_c.sql", "c")], "*.sql"⟩
        (faultAt 2 .body "syntax error") noCuts ⟨none, []⟩).2.1).2.2 = ["002_b.sql", "003_c.sql"] ∧
    (Source.Migrate
      ⟨FS.ofFiles [("001_a.sql", "a"), ("002_b.sql", "b"), ("003_c.sql", "c")], "*.sql"⟩
      (faultAt 2 .body "syntax error") noCuts ⟨none, []⟩).2.1.rows = ["001_a.sql"] ∧
    ∃ mid after2, ["002_b.sql", "003_c.sql"] = mid ++ "003_c.sql" :: after2 ∧
      executed (Source.Migrate
        ⟨FS.ofFiles [("001_a.sql", "a"), ("002_b.sql", "b"), ("003_c.sql", "c")], "*.sql"⟩
        (faultAt 3 .body "syntax error") noCuts
        (Source.Migrate
          ⟨FS.ofFiles [("001_a.sql", "a"), ("002_b.sql", "b"), ("003_c.sql", "c")], "*.sql"⟩
          (faultAt 2 .body "syntax error") noCuts ⟨none, []⟩).2.1).2.2 = mid ++ ["003_c.sql"] :=
  have h3 := (Migrate_resumes
    ⟨FS.ofFiles [("001_a.sql", "a"), ("002_b.sql", "b"), ("003_c.sql", "c")], "*.sql"⟩
    (faultAt 2 .body "syntax error") (faultAt 3 .body "syntax error") noCuts ⟨none, []⟩
    ["001_a.sql", "002_b.sql", "003_c.sql"] ["001_a.sql"] ["003_c.sql"] "002_b.sql"
    "syntax error" rfl (by decide) (by decide)
    (fun f _ => by simp [DBState.count, DBState.rows]) (by decide) (fun _ _ => rfl)).2.2.2.2.2
    "003_c.sql" "syntax error" (by decide)
  have h := Migrate_resumes
    ⟨FS.ofFiles [("001_a.sql", "a"), ("002_b.sql", "b"), ("003_c.sql", "c")], "*.sql"⟩
    (faultAt 2 .body "syntax error") noFaults noCuts ⟨none, []⟩
    ["001_a.sql", "002_b.sql", "003_c.sql"] ["001_a.sql"] ["003_c.sql"] "002_b.sql"
    "syntax error" rfl (by decide) (by decide)
    (fun f _ => by simp [DBState.count, DBState.rows]) (by decide) (fun _ _ => rfl)
  ⟨(h.2.2.2.2.1 (by decide)).1, h.1.2.2.1, h3⟩

/-- Counterexample to C5 as stated: the body of `002_b.sql` is
`commit; selec 1`, whose second statement fails after its first one has
committed the transaction.  The first run fails with the execution error of
`002_b.sql`, yet `002_b.sql` has a record afterwards; the second run, in which
nothing fails, skips it and executes `003_c.sql` only. -/
theorem Migrate_resume_skips_committed :
    Source.Migrate
        ⟨FS.ofFiles [("001_a.sql", "a"), ("002_b.sql", "commit; selec 1"), ("003_c.sql", "c")],
          "*.sql"⟩
        (faultAt 2 .body "syntax error") (cutAt "commit; selec 1" "commit;") ⟨none, []⟩ =
      (some (commitErr "002_b.sql" (execErr "002_b.sql" "syntax error")),
        ⟨some ["001_a.sql", "002_b.sql"], ["a", "commit;"]⟩,
        [.glob "*.sql", .begin, .createTable, .commit,
          .readFile "001_a.sql", .begin, .status "001_a.sql", .record "001_a.sql",
          .body "001_a.sql" "a", .commit,
          .readFile "002_b.sql", .begin, .status "002_b.sql", .record "002_b.sql",
          .body "002_b.sql" "commit; selec 1", .rollback]) ∧
    (DBState.mk (some ["001_a.sql", "002_b.sql"]) ["a", "commit;"]).count "002_b.sql" = 1 ∧
    (Source.Migrate
        ⟨FS.ofFiles [("001_a.sql", "a"), ("002_b.sql", "commit; selec 1"), ("003_c.sql", "c")],
          "*.sql"⟩
        noFaults (cutAt "commit; selec 1" "commit;")
        ⟨some ["001_a.sql", "002_b.sql"], ["a", "commit;"]⟩).1 = none ∧
    executed (Source.Migrate
        ⟨FS.ofFiles [("001_a.sql", "a"), ("002_b.sql", "commit; selec 1"), ("003_c.sql", "c")],
          "*.sql"⟩
        noFaults (cutAt "commit; selec 1" "commit;")
        ⟨some ["001_a.sql", "002_b.sql"], ["a", "commit;"]⟩).2.2 = ["003_c.sql"] := by
  decide

end Pgxmig
